import Mathlib

/-!
# Verification of the MIIM extraction-to-graph pipeline

A shallow embedding of the core pipeline of the `miim-platform` repository:
the entity matcher (`pipeline/deduplication.py`), the graph writer
(`pipeline/database_writer.py`), the confidence router of the orchestrator
(`pipeline/orchestrator.py`), the extractor validation layer
(`extraction/extract_company_data.py`) and the quality-assurance sweep
(`pipeline/quality_assurance.py`).

Modelling conventions:
* Python strings are embedded as `List Char`; `str.strip`, `str.lower` and
  substring search are given explicit executable definitions.
* Row identifiers (`uuid4` strings in the source) are embedded as natural
  numbers drawn from a counter carried by the store; uuid strings are
  assumed unique and non-empty, which the counter models exactly.
* Database rows are association lists from column names to nullable values
  (`Option Val`), mirroring the dict rows returned by the store client.
* Rational numbers stand in for Python floats.  All confidence values that
  reach a comparison are produced by `round(x, 2)` of values in [0, 1], so
  the float/rational distinction is not observable at the thresholds.
* Timestamps (`datetime.utcnow()`) are embedded as a `now : Nat` parameter.
-/

namespace Miim

/-! ## Python string primitives -/

/-- A Python string, embedded as its list of characters. -/
abbrev PyStr := List Char

/-- Coerce a Lean string literal to the embedded representation. -/
def str (s : String) : PyStr := s.data

/-- `str.lower()` (ASCII case folding, which covers every name used here). -/
def pyLower (s : PyStr) : PyStr := s.map Char.toLower

/-- Whitespace test used by `str.strip` and `\s` in the source's regexes. -/
def isSpace (c : Char) : Bool := c.isWhitespace

/-- `str.strip()`: remove leading and trailing whitespace. -/
def pyStrip (s : PyStr) : PyStr :=
  ((s.dropWhile isSpace).reverse.dropWhile isSpace).reverse

/-- Substring containment, `needle in hay` / SQL `LIKE '%needle%'`. -/
def pyContains (hay needle : PyStr) : Bool := decide (needle <:+: hay)

/-- Case-insensitive containment: SQL `ILIKE '%needle%'`. -/
def containsCI (hay needle : PyStr) : Bool := pyContains (pyLower hay) (pyLower needle)

/-! ## Values and rows -/

/-- A non-null database/JSON value: the pipeline only stores strings and
numbers in the columns the claims are about. -/
inductive Val
  | s (v : PyStr)
  | n (v : ℚ)
  deriving DecidableEq, Repr

/-- Python truthiness of a nullable value: `None`, `""`, and `0` are falsy. -/
def truthy : Option Val → Bool
  | none => false
  | some (.s v) => !v.isEmpty
  | some (.n q) => decide (q ≠ 0)

/-- A row fragment: an association list from column names to nullable values. -/
abbrev AttrMap := List (String × Option Val)

/-- Read a column; a missing key reads as SQL `NULL` (the database row always
has every column of the schema, so an absent key in the embedded dict is a
null column). -/
def getCol (a : AttrMap) (k : String) : Option Val :=
  match a.lookup k with
  | some v => v
  | none => none

/-- Write one column of a row, adding the column if the embedded dict does
not carry it yet. -/
def setCol (a : AttrMap) (k : String) (v : Option Val) : AttrMap :=
  if a.any (fun p => p.1 = k) then
    a.map (fun p => if p.1 = k then (p.1, v) else p)
  else
    a ++ [(k, v)]

/-- Apply an update dict to a row, column by column. -/
def applyUpd (a : AttrMap) (upd : AttrMap) : AttrMap :=
  upd.foldl (fun acc p => setCol acc p.1 p.2) a

/-! ## Store -/

/-- A stored company row (`companies` table).  `company_id`,
`data_confidence`, `created_at` and `updated_at` are kept as dedicated
fields because `upsert_company` special-cases exactly those keys; all other
columns live in `attrs`. -/
structure CompanyRow where
  company_id : ℕ
  attrs : AttrMap
  data_confidence : ℚ
  created_at : ℕ
  updated_at : ℕ
  deriving DecidableEq, Repr

/-- The `company_name` column of a row, as the store's ILIKE filter sees it:
a null or non-string name never matches the filter. -/
def rowName (r : CompanyRow) : Option PyStr :=
  match getCol r.attrs "company_name" with
  | some (.s v) => some v
  | _ => none

/-- An `events` table row. -/
structure EventRow where
  event_id : ℕ
  company_id : ℕ
  event_type : PyStr
  title : PyStr
  description : PyStr
  event_date : ℕ
  city : PyStr
  investment_amount_mad : Option ℚ
  source_url : PyStr
  confidence_score : ℚ
  created_at : ℕ
  deriving DecidableEq, Repr

/-- A `company_relationships` table row. -/
structure RelRow where
  id : ℕ
  source_company_id : ℕ
  target_company_id : ℕ
  relationship_type : PyStr
  description : PyStr
  source_url : PyStr
  confidence_score : ℚ
  status : PyStr
  created_at : ℕ
  deriving DecidableEq, Repr

/-- A legacy `partnerships` table row. -/
structure PartRow where
  partnership_id : ℕ
  company_a_id : ℕ
  company_b_id : ℕ
  partnership_type : PyStr
  description : PyStr
  status : PyStr
  source_url : PyStr
  confidence_score : ℚ
  created_at : ℕ
  deriving DecidableEq, Repr

/-- A `company_articles` media-mention link row. -/
structure LinkRow where
  id : ℕ
  company_id : ℕ
  article_id : ℕ
  mention_type : PyStr
  created_at : ℕ
  deriving DecidableEq, Repr

/-- A `company_people` row. -/
structure PersonRow where
  id : ℕ
  company_id : ℕ
  person_name : PyStr
  role_title : PyStr
  role_type : PyStr
  created_at : ℕ
  deriving DecidableEq, Repr

/-- A `review_queue` row. -/
structure ReviewRow where
  id : ℕ
  article_id : ℕ
  extraction_result_id : ℕ
  confidence_score : ℚ
  reason_flagged : PyStr
  status : PyStr
  created_at : ℕ
  deriving DecidableEq, Repr

/-- An `articles` table row (only the columns the pipeline touches). -/
structure ArticleRow where
  id : ℕ
  processing_status : PyStr
  error_message : Option PyStr
  deriving DecidableEq, Repr

/-- A `sectors` table row. -/
structure SectorRow where
  sector_id : ℕ
  sector_name : PyStr
  deriving DecidableEq, Repr

/-- A `value_chain_stages` table row. -/
structure StageRow where
  id : ℕ
  sector_id : ℕ
  stage_name : PyStr
  deriving DecidableEq, Repr

/-- The relational store, plus the fresh-identifier counter that models
`uuid.uuid4()`. -/
structure Store where
  companies : List CompanyRow
  sectors : List SectorRow
  valueChainStages : List StageRow
  events : List EventRow
  relationships : List RelRow
  partnerships : List PartRow
  companyArticles : List LinkRow
  companyPeople : List PersonRow
  reviewQueue : List ReviewRow
  articles : List ArticleRow
  nextId : ℕ
  deriving DecidableEq, Repr

/-- Draw a fresh identifier (`uuid.uuid4()`). -/
def Store.genId (st : Store) : ℕ × Store :=
  (st.nextId, { st with nextId := st.nextId + 1 })

/-! ## Entity Matcher — `pipeline/deduplication.py`, `find_matching_company` -/

/--
`find_matching_company(supabase_client, company_name, city=None)`.

The source lowercases and strips the candidate, issues
`ILIKE '%candidate%'` on `company_name`, prefers an exact case-insensitive
match among the returned rows and otherwise returns the first row.  The
`city` argument is accepted but never used by the function body.
-/
def find_matching_company (companies : List CompanyRow) (company_name : PyStr)
    (_city : Option PyStr := none) : Option ℕ :=
  if (pyStrip company_name).isEmpty then none
  else
    let pat := pyStrip (pyLower company_name)
    match companies.filter (fun r =>
        match rowName r with
        | some nm => containsCI nm pat
        | none => false) with
    | [] => none
    | c :: cs =>
      match (c :: cs).find? (fun r =>
          match rowName r with
          | some nm => pyLower nm = pat
          | none => false) with
      | some r => some r.company_id
      | none => some c.company_id

/-! ## Graph Writer — `pipeline/database_writer.py` -/

/-- One entry of an entity's `management_mentions` list. -/
structure PersonMention where
  name : Option PyStr := none
  role : Option PyStr := none
  deriving DecidableEq, Repr

/-- An extracted entity as handed to `DatabaseWriter.upsert_company`.  Fields
are nullable exactly as in the validated extraction payload.  For the keys
read with a dict default (`ownership_type`, `mention_type`, `event_type`,
`confidence_score`) a `none` field stands for an absent key, so the Python
default applies; the validated payload never carries those keys with an
explicit null when it matters for the claims proved here. -/
structure Entity where
  company_name : Option PyStr := none
  description : Option PyStr := none
  activities : Option PyStr := none
  sector : Option PyStr := none
  sub_sector : Option PyStr := none
  value_chain_position : Option PyStr := none
  event_type : Option PyStr := none
  city : Option PyStr := none
  investment_amount_mad : Option ℚ := none
  employee_count : Option ℤ := none
  revenue_mad : Option ℚ := none
  website_url : Option PyStr := none
  parent_company : Option PyStr := none
  ownership_type : Option PyStr := none
  management_mentions : List PersonMention := []
  mention_type : Option PyStr := none
  confidence_score : Option ℚ := none
  source_summary : Option PyStr := none
  deriving DecidableEq, Repr

/-- `DatabaseWriter._get_sector_id`: first `sectors` row whose name contains
the trimmed sector string case-insensitively (`ILIKE`, `limit 1`). -/
def get_sector_id (st : Store) (sector_name : Option PyStr) : Option ℕ :=
  match sector_name with
  | none => none
  | some nm =>
    if nm.isEmpty then none
    else
      match st.sectors.find? (fun r => containsCI r.sector_name (pyStrip nm)) with
      | some r => some r.sector_id
      | none => none

/-- `DatabaseWriter._get_value_chain_stage_id`: stage of the given sector
whose name contains the trimmed position string (`ILIKE`, `limit 1`). -/
def get_value_chain_stage_id (st : Store) (sector_id : Option ℕ)
    (position : Option PyStr) : Option ℕ :=
  match sector_id, position with
  | some sid, some pos =>
    if pos.isEmpty then none
    else
      match st.valueChainStages.find?
          (fun r => r.sector_id = sid && containsCI r.stage_name (pyStrip pos)) with
      | some r => some r.id
      | none => none
  | _, _ => none

/-- Keyword test used by `DatabaseWriter._classify_role`. -/
def containsAny (s : PyStr) (keys : List String) : Bool :=
  keys.any (fun k => pyContains s (str k))

/-- `DatabaseWriter._classify_role`. -/
def classify_role (role_title : PyStr) : PyStr :=
  let rl := pyLower role_title
  if containsAny rl ["ceo", "pdg", "directeur général", "director general", "chief executive"] then str "CEO"
  else if containsAny rl ["cfo", "directeur financier", "chief financial"] then str "CFO"
  else if containsAny rl ["coo", "directeur des opérations", "chief operating"] then str "COO"
  else if containsAny rl ["cto", "directeur technique", "chief technology"] then str "CTO"
  else if containsAny rl ["fondateur", "founder", "co-fondateur", "co-founder"] then str "Founder"
  else if containsAny rl ["directeur", "director", "directrice"] then str "Director"
  else if containsAny rl ["board", "administrateur", "conseil"] then str "Board"
  else if containsAny rl ["manager", "responsable", "chef"] then str "Manager"
  else str "Other"

/-- `DatabaseWriter._link_article_to_company`: unconditionally attempt the
insert (the source traps a duplicate-link unique violation and moves on; the
embedded table carries no such constraint). -/
def link_article_to_company (st : Store) (company_id article_id : ℕ)
    (mention_type : PyStr) (now : ℕ) : Store :=
  let (lid, st') := st.genId
  { st' with companyArticles := st'.companyArticles ++
      [{ id := lid, company_id := company_id, article_id := article_id,
         mention_type := mention_type, created_at := now }] }

/-- One iteration of the `_save_management` loop: skip empty names, skip
people already attached to the company (case-insensitive `ILIKE` containment
on the stored name), otherwise insert. -/
def save_person (acc : Store) (company_id : ℕ) (p : PersonMention)
    (now : ℕ) : Store :=
  let name := pyStrip (p.name.getD [])
  let role := pyStrip (p.role.getD [])
  if name.isEmpty then acc
  else if acc.companyPeople.any
      (fun r => r.company_id = company_id && containsCI r.person_name name) then acc
  else
    let (pid, acc') := acc.genId
    { acc' with companyPeople := acc'.companyPeople ++
        [{ id := pid, company_id := company_id, person_name := name,
           role_title := role, role_type := classify_role role,
           created_at := now }] }

/-- `DatabaseWriter._save_management`. -/
def save_management (st : Store) (company_id : ℕ)
    (mentions : List PersonMention) (now : ℕ) : Store :=
  mentions.foldl (fun acc p => save_person acc company_id p now) st

/-- The `company_data` dict built by `upsert_company` (minus the
`data_confidence` / `updated_at` keys, which the function special-cases and
which the embedding keeps as dedicated row fields).  The two optional numeric
columns are added only when the entity carries them, as in the source. -/
def buildCompanyData (st : Store) (entity : Entity) (company_name : PyStr) : AttrMap :=
  [("company_name", some (.s company_name)),
   ("sector_id", (get_sector_id st entity.sector).map (fun i => .n i)),
   ("sub_sector", entity.sub_sector.map .s),
   ("headquarters_city", entity.city.map .s),
   ("description", entity.description.map .s),
   ("activities", entity.activities.map .s),
   ("value_chain_stage_id",
     (get_value_chain_stage_id st (get_sector_id st entity.sector)
       entity.value_chain_position).map (fun i => .n i)),
   ("website_url", entity.website_url.map .s),
   ("parent_company", entity.parent_company.map .s),
   ("ownership_type", some (.s (entity.ownership_type.getD (str "Unknown"))))]
  ++ (match entity.employee_count with
      | some k => [("employee_count", some (.n k))]
      | none => [])
  ++ (match entity.revenue_mad with
      | some q => [("annual_revenue_mad", some (.n q))]
      | none => [])

/-- The update dict computed on the found-existing branch of
`upsert_company`: the subset of `company_data` whose value is truthy and
whose current stored value is falsy (`if value and not current.get(key)`),
skipping `updated_at` and `data_confidence`. -/
def buildUpdateData (cd : AttrMap) (current : CompanyRow) : AttrMap :=
  cd.filter (fun p => truthy p.2 && !truthy (getCol current.attrs p.1))

/-- The found-existing branch of `upsert_company`: fill only currently-falsy
columns, raise the stored confidence when strictly higher, link the article
and save the management mentions. -/
def upsert_company_update (st : Store) (entity : Entity) (article_id : ℕ)
    (confidence : ℚ) (now : ℕ) (company_name : PyStr) (existing_id : ℕ) :
    Option ℕ × Store :=
  match st.companies.find? (fun r => r.company_id = existing_id) with
  | none => (none, st)
  | some current =>
    let cd := buildCompanyData st entity company_name
    let upd := buildUpdateData cd current
    let newConf :=
      if confidence > current.data_confidence then confidence
      else current.data_confidence
    let st1 := { st with companies := st.companies.map (fun r =>
      if r.company_id = existing_id then
        { r with attrs := applyUpd r.attrs upd, data_confidence := newConf,
                 updated_at := now }
      else r) }
    let st2 := link_article_to_company st1 existing_id article_id
      (entity.mention_type.getD (str "mentioned")) now
    let st3 := save_management st2 existing_id entity.management_mentions now
    (some existing_id, st3)

/-- The not-found branch of `upsert_company`: insert a fresh row whose dict
has the null values cleaned out, then link the article and save the
management mentions. -/
def upsert_company_insert (st : Store) (entity : Entity) (article_id : ℕ)
    (confidence : ℚ) (now : ℕ) (company_name : PyStr) : Option ℕ × Store :=
  let cd := buildCompanyData st entity company_name
  let cid := st.genId.1
  let st1 := st.genId.2
  let row : CompanyRow :=
    { company_id := cid, attrs := cd.filter (fun p => p.2.isSome),
      data_confidence := confidence, created_at := now, updated_at := now }
  let st2 := { st1 with companies := st1.companies ++ [row] }
  let st3 := link_article_to_company st2 cid article_id
    (entity.mention_type.getD (str "mentioned")) now
  let st4 := save_management st3 cid entity.management_mentions now
  (some cid, st4)

/--
`DatabaseWriter.upsert_company(entity, article_id, confidence)`.

Returns the resolved company id (or `none`) together with the new store.
Resolves identity through the Matcher and dispatches to the update or the
insert branch.
-/
def upsert_company (st : Store) (entity : Entity) (article_id : ℕ)
    (confidence : ℚ) (now : ℕ) : Option ℕ × Store :=
  let company_name := pyStrip (entity.company_name.getD [])
  if company_name.isEmpty then (none, st)
  else
    match find_matching_company st.companies company_name entity.city with
    | some existing_id =>
      upsert_company_update st entity article_id confidence now company_name
        existing_id
    | none =>
      upsert_company_insert st entity article_id confidence now company_name

/-! ## Events, relationships, review queue, article status -/

/-- Python `a or b` on strings: the left operand unless it is falsy. -/
def orTruthy (a : Option PyStr) (b : PyStr) : PyStr :=
  match a with
  | some v => if v.isEmpty then b else v
  | none => b

/-- The fixed table of `DatabaseWriter._normalize_event_type`. -/
def eventTypeMapping : List (String × String) :=
  [("new_factory", "New Factory"), ("partnership", "Partnership"),
   ("investment", "Investment"), ("acquisition", "Acquisition"),
   ("export_milestone", "Export Milestone"),
   ("government_incentive", "Government Incentive"),
   ("expansion", "Expansion"), ("closure", "Closure"), ("ipo", "IPO"),
   ("hiring", "Other"), ("product_launch", "Other"),
   ("certification", "Other"), ("other", "Other")]

/-- `DatabaseWriter._normalize_event_type`: table lookup on the lowercased
string, defaulting to `"Other"`. -/
def normalize_event_type (event_type : PyStr) : PyStr :=
  match eventTypeMapping.find? (fun p => str p.1 = pyLower event_type) with
  | some p => str p.2
  | none => str "Other"

/-- `DatabaseWriter.insert_event`: always creates a fresh row, never
deduplicates. -/
def insert_event (st : Store) (entity : Entity) (company_id : ℕ)
    (article_url : PyStr) (confidence : ℚ) (now : ℕ) : Option ℕ × Store :=
  let event_type := normalize_event_type (pyLower (orTruthy entity.event_type (str "other")))
  let summary := orTruthy entity.source_summary (orTruthy entity.description [])
  let title :=
    if summary.isEmpty then str "Event: " ++ entity.company_name.getD []
    else summary.take 200
  let (eid, st') := st.genId
  (some eid,
   { st' with events := st'.events ++
      [{ event_id := eid, company_id := company_id, event_type := event_type,
         title := title, description := summary, event_date := now,
         city := entity.city.getD [],
         investment_amount_mad := entity.investment_amount_mad,
         source_url := article_url, confidence_score := confidence,
         created_at := now }] })

/-- A validated relationship entry as handed to `insert_relationships`. -/
structure Rel where
  source_company : PyStr
  target_company : PyStr
  relationship_type : PyStr
  description : PyStr := []
  deriving DecidableEq, Repr

/-- `DatabaseWriter._insert_legacy_partnership`: skip when a row with the
same `(company_a, company_b)` pair exists, otherwise insert. -/
def insert_legacy_partnership (st : Store) (company_a_id company_b_id : ℕ)
    (rel_type : PyStr) (description : PyStr) (source_url : PyStr)
    (confidence : ℚ) (now : ℕ) : Store :=
  if st.partnerships.any (fun r =>
      r.company_a_id = company_a_id && r.company_b_id = company_b_id) then st
  else
    let (pid, st') := st.genId
    { st' with partnerships := st'.partnerships ++
       [{ partnership_id := pid, company_a_id := company_a_id,
          company_b_id := company_b_id,
          partnership_type :=
            if rel_type = str "joint_venture" then str "Joint Venture"
            else str "Other",
          description := description, status := str "Active",
          source_url := source_url, confidence_score := confidence,
          created_at := now }] }

/-- One iteration of the `insert_relationships` loop. -/
def insertOneRel (st : Store) (inserted : ℕ) (rel : Rel)
    (company_name_to_id : List (PyStr × ℕ)) (source_url : PyStr)
    (confidence : ℚ) (now : ℕ) : ℕ × Store :=
  let source_name := pyStrip rel.source_company
  let target_name := pyStrip rel.target_company
  let rel_type := rel.relationship_type
  let source_id :=
    match company_name_to_id.lookup source_name with
    | some i => some i
    | none => find_matching_company st.companies source_name
  let target_id :=
    match company_name_to_id.lookup target_name with
    | some i => some i
    | none => find_matching_company st.companies target_name
  match source_id, target_id with
  | some sid, some tid =>
    if sid = tid then (inserted, st)
    else if st.relationships.any (fun r =>
        r.source_company_id = sid && r.target_company_id = tid &&
        r.relationship_type = rel_type) then (inserted, st)
    else
      let (rid, st') := st.genId
      let st2 := { st' with relationships := st'.relationships ++
        [{ id := rid, source_company_id := sid, target_company_id := tid,
           relationship_type := rel_type, description := rel.description,
           source_url := source_url, confidence_score := confidence,
           status := str "active", created_at := now }] }
      let st3 :=
        if rel_type = str "partner" || rel_type = str "joint_venture" then
          insert_legacy_partnership st2 sid tid rel_type rel.description
            source_url confidence now
        else st2
      (inserted + 1, st3)
  | _, _ => (inserted, st)

/-- `DatabaseWriter.insert_relationships`: resolve both endpoints through the
accumulated name map with the Matcher as fallback, silently skip unresolvable
or self-loop or already-stored edges, and return the number of rows actually
inserted. -/
def insert_relationships (st : Store) (relationships : List Rel)
    (company_name_to_id : List (PyStr × ℕ)) (source_url : PyStr)
    (confidence : ℚ) (now : ℕ) : ℕ × Store :=
  relationships.foldl
    (fun acc rel =>
      insertOneRel acc.2 acc.1 rel company_name_to_id source_url confidence now)
    (0, st)

/-- `DatabaseWriter.add_to_review_queue`: insert a pending review item (the
embedded store accepts every insert). -/
def add_to_review_queue (st : Store) (article_id extraction_result_id : ℕ)
    (confidence : ℚ) (reason : PyStr) (now : ℕ) : Option ℕ × Store :=
  let (rid, st') := st.genId
  (some rid,
   { st' with reviewQueue := st'.reviewQueue ++
      [{ id := rid, article_id := article_id,
         extraction_result_id := extraction_result_id,
         confidence_score := confidence, reason_flagged := reason,
         status := str "pending", created_at := now }] })

/-- `PipelineOrchestrator._update_article_status`. -/
def update_article_status (st : Store) (article_id : ℕ) (status : PyStr)
    (error_message : Option PyStr := none) : Store :=
  { st with articles := st.articles.map (fun a =>
      if a.id = article_id then
        { a with processing_status := status,
                 error_message :=
                   match error_message with
                   | some m => some m
                   | none => a.error_message }
      else a) }

/-! ## Confidence Router — `pipeline/orchestrator.py`, lines 144–198 -/

/-- `CONFIDENCE_THRESHOLDS["auto_approve"]` from `config/settings.py`. -/
def CONFIDENCE_THRESHOLDS_auto_approve : ℚ := 85 / 100

/-- `CONFIDENCE_THRESHOLDS["review_queue"]` from `config/settings.py`. -/
def CONFIDENCE_THRESHOLDS_review_queue : ℚ := 65 / 100

/-- The three terminal routes of the confidence gate. -/
inductive Route
  | auto
  | review
  | discard
  deriving DecidableEq, Repr

/-- The branch taken by `process_extraction_queue` for a given overall
confidence (`if confidence >= threshold_auto_approve: … elif confidence >=
threshold_review: … else: …`). -/
def routeOf (confidence : ℚ) : Route :=
  if confidence ≥ CONFIDENCE_THRESHOLDS_auto_approve then .auto
  else if confidence ≥ CONFIDENCE_THRESHOLDS_review_queue then .review
  else .discard

/-- A validated extraction result as routed by the orchestrator. -/
structure Extraction where
  entities : List Entity
  relationships : List Rel
  overall_confidence : ℚ
  deriving DecidableEq, Repr

/-- Insert into a Python dict (`d[k] = v`): later bindings win. -/
def pyDictInsert (m : List (PyStr × ℕ)) (k : PyStr) (v : ℕ) : List (PyStr × ℕ) :=
  m.filter (fun p => p.1 ≠ k) ++ [(k, v)]

/-- One iteration of the auto-approve entity loop: upsert the entity when
its name is resolvable, record it in the name→id map, and insert an event
when the entity is a primary subject. -/
def processOneEntity (acc : List (PyStr × ℕ) × Store) (entity : Entity)
    (article_id : ℕ) (article_url : PyStr) (confidence : ℚ) (now : ℕ) :
    List (PyStr × ℕ) × Store :=
  let entity_name := pyStrip (entity.company_name.getD [])
  if entity_name.isEmpty then acc
  else
    let r := upsert_company acc.2 entity article_id
      (entity.confidence_score.getD confidence) now
    match r.1 with
    | none => (acc.1, r.2)
    | some cid =>
      let m := pyDictInsert acc.1 entity_name cid
      if entity.mention_type = some (str "primary_subject") then
        (m, (insert_event r.2 entity cid article_url
          (entity.confidence_score.getD confidence) now).2)
      else (m, r.2)

/-- The auto-approve entity loop of `process_extraction_queue`. -/
def processEntities (st : Store) (entities : List Entity) (article_id : ℕ)
    (article_url : PyStr) (confidence : ℚ) (now : ℕ) :
    List (PyStr × ℕ) × Store :=
  entities.foldl
    (fun acc entity => processOneEntity acc entity article_id article_url confidence now)
    ([], st)

/--
The confidence-gated routing of one saved extraction result
(`process_extraction_queue`, lines 144–198).  The extraction result row and
cost log have already been persisted; this models the three-way branch and
its writes.  Store inserts succeed in the embedded store, so the
review-queue branch always reaches the `extracted` status update.
-/
def process_routing (st : Store) (article_id result_id : ℕ)
    (article_url : PyStr) (ex : Extraction) (now : ℕ) : Store :=
  let confidence := ex.overall_confidence
  if confidence ≥ CONFIDENCE_THRESHOLDS_auto_approve then
    let r := processEntities st ex.entities article_id article_url
      confidence now
    let st2 :=
      if ex.relationships.isEmpty then r.2
      else (insert_relationships r.2 ex.relationships r.1 article_url
        confidence now).2
    update_article_status st2 article_id (str "extracted")
  else if confidence ≥ CONFIDENCE_THRESHOLDS_review_queue then
    update_article_status
      (add_to_review_queue st article_id result_id confidence
        (str "Confidence score between thresholds") now).2
      article_id (str "extracted")
  else
    update_article_status st article_id (str "skipped")
      (some (str "Confidence below minimum threshold"))

/-! ## Extractor validation — `extraction/extract_company_data.py` -/

/-- `max(0.0, min(1.0, x))`. -/
def clamp01 (q : ℚ) : ℚ := max 0 (min 1 q)

/-- Round to the nearest integer, ties to even (Python `round`). -/
def roundHalfEven (q : ℚ) : ℤ :=
  let f := Int.floor q
  let r := q - f
  if r < 1 / 2 then f
  else if 1 / 2 < r then f + 1
  else if Even f then f else f + 1

/-- Python `round(x, 2)` (the float-representation wobble on exact ties is
not modelled; no claim depends on a tie's direction). -/
def pyRound2 (q : ℚ) : ℚ := (roundHalfEven (q * 100) : ℚ) / 100

/-- `VALID_EVENT_TYPES` from the extraction module. -/
def VALID_EVENT_TYPES : List String :=
  ["new_factory", "partnership", "investment", "acquisition",
   "export_milestone", "expansion", "hiring", "product_launch",
   "certification", "other"]

/-- `VALID_RELATIONSHIP_TYPES` from the extraction module. -/
def VALID_RELATIONSHIP_TYPES : List String :=
  ["client", "supplier", "partner", "subsidiary", "parent", "investor",
   "joint_venture", "competitor"]

/-- A raw extracted entity dict as returned by the LLM; `none` stands for an
absent key, so each schema default applies.  Raw numeric fields are taken as
already numeric (the `float()` / `int()` coercion failures that reset a field
are upstream of every claim proved here). -/
structure RawEntity where
  company_name : Option PyStr := none
  description : Option PyStr := none
  activities : Option PyStr := none
  sector : Option PyStr := none
  sub_sector : Option PyStr := none
  value_chain_position : Option PyStr := none
  event_type : Option PyStr := none
  city : Option PyStr := none
  investment_amount_mad : Option ℚ := none
  employee_count : Option ℤ := none
  revenue_mad : Option ℚ := none
  website_url : Option PyStr := none
  parent_company : Option PyStr := none
  ownership_type : Option PyStr := none
  management_mentions : List PersonMention := []
  mention_type : Option PyStr := none
  confidence_score : Option ℚ := none
  deriving DecidableEq, Repr

/-- Whether the raw entity's event type passes the
`VALID_EVENT_TYPES` membership test of `_validate_entity` (an absent key
defaults to `"other"`, which is valid). -/
def rawEventValid (raw : RawEntity) : Bool :=
  VALID_EVENT_TYPES.any (fun t => str t = raw.event_type.getD (str "other"))

/-- The confidence pipeline of `_validate_entity`: dict default `0.5`, the
`min(·, 0.6)` penalty for an invalid event type, then the clamp to `[0, 1]`. -/
def validate_entity_confidence (raw : RawEntity) : ℚ :=
  let c1 := raw.confidence_score.getD (1 / 2)
  let c2 := if rawEventValid raw then c1 else min c1 (6 / 10)
  clamp01 c2

/-- `_validate_entity`: apply the schema defaults, normalize the event type,
filter nameless management mentions, clamp the confidence, round the numeric
fields and normalize the mention type. -/
def validate_entity (raw : RawEntity) : Entity :=
  { company_name := raw.company_name
    description := raw.description
    activities := raw.activities
    sector := raw.sector
    sub_sector := raw.sub_sector
    value_chain_position := raw.value_chain_position
    event_type :=
      some (if rawEventValid raw then raw.event_type.getD (str "other")
            else str "other")
    city := raw.city
    investment_amount_mad := raw.investment_amount_mad.map pyRound2
    employee_count := raw.employee_count
    revenue_mad := raw.revenue_mad.map pyRound2
    website_url := raw.website_url
    parent_company := raw.parent_company
    ownership_type := some (raw.ownership_type.getD (str "Unknown"))
    management_mentions :=
      raw.management_mentions.filter (fun m => !(m.name.getD []).isEmpty)
    mention_type :=
      some (if (raw.mention_type.getD (str "mentioned")) = str "primary_subject"
              ∨ (raw.mention_type.getD (str "mentioned")) = str "mentioned"
              ∨ (raw.mention_type.getD (str "mentioned")) = str "quoted" then
              raw.mention_type.getD (str "mentioned")
            else str "mentioned")
    confidence_score := some (validate_entity_confidence raw)
    source_summary := none }

/-- A raw relationship dict. -/
structure RawRel where
  source_company : Option PyStr := none
  target_company : Option PyStr := none
  relationship_type : Option PyStr := none
  description : Option PyStr := none
  deriving DecidableEq, Repr

/-- `_validate_relationship`: require distinct non-empty endpoints and
normalize unknown types to `"partner"`. -/
def validate_relationship (raw : RawRel) : Option Rel :=
  let source := pyStrip (raw.source_company.getD [])
  let target := pyStrip (raw.target_company.getD [])
  let rel_type0 := pyLower (pyStrip (raw.relationship_type.getD []))
  if source.isEmpty ∨ target.isEmpty then none
  else if source = target then none
  else
    some { source_company := source, target_company := target,
           relationship_type :=
             if VALID_RELATIONSHIP_TYPES.any (fun t => str t = rel_type0) then
               rel_type0
             else str "partner",
           description := raw.description.getD [] }

/-- The raw v2 extraction payload (the v1 single-entity compatibility
rewrite produces this same shape before the code below runs). -/
structure RawExtraction where
  entities : List RawEntity := []
  relationships : List RawRel := []
  overall_confidence : Option ℚ := none
  deriving DecidableEq, Repr

/-- `_validate_extracted_data`: validate every entity and relationship, then
compute the overall confidence — the mean of the per-entity scores rounded to
two decimals when any entity was validated, and the clamped LLM-reported
value only when none was. -/
def validate_extracted_data (raw : RawExtraction) : Extraction :=
  let entities := raw.entities.map validate_entity
  let relationships := raw.relationships.filterMap validate_relationship
  let overall :=
    if entities.isEmpty then
      clamp01 (raw.overall_confidence.getD (1 / 2))
    else
      pyRound2 ((raw.entities.map validate_entity_confidence).sum /
        raw.entities.length)
  { entities := entities, relationships := relationships,
    overall_confidence := overall }

/-- The synchronous input errors of `extract_company_data`. -/
inductive InputError
  | emptyText
  | tooShort (n : ℕ)
  deriving DecidableEq, Repr

/-- `MAX_CHARS` from `extract_company_data`. -/
def MAX_CHARS : ℕ := 12000

/-- The input-validation prefix of `extract_company_data` (everything the
function does to `article_text` before the OpenAI client is constructed):
reject empty or whitespace-only text, reject text shorter than 20 characters
after trimming, truncate text longer than `MAX_CHARS`. -/
def validate_article_text (article_text : PyStr) : Except InputError PyStr :=
  if article_text.isEmpty || (pyStrip article_text).isEmpty then
    .error .emptyText
  else
    let cleaned := pyStrip article_text
    if cleaned.length < 20 then .error (.tooShort cleaned.length)
    else .ok (if MAX_CHARS < cleaned.length then cleaned.take MAX_CHARS else cleaned)

/-! ## Quality-Assurance Sweep — `pipeline/quality_assurance.py` -/

/-- Word character for the `\b` boundary of the `LEGAL_SUFFIXES` regex. -/
def isWordChar (c : Char) : Bool := c.isAlphanum || c = '_'

/-- The alternatives of the `LEGAL_SUFFIXES` regex, with each optional
trailing dot expanded.  The regex anchors the suffix (preceded by a word
boundary) at the end of the string after optional whitespace, so which
alternative matches at a position never changes the removed span. -/
def LEGAL_SUFFIX_ALTS : List String :=
  ["SA", "SARL", "SAS", "SASU", "SCA", "SNC", "SARL AU", "GIE",
   "S.A.", "S.A", "S.A.R.L.", "S.A.R.L", "S.A.S.", "S.A.S"]

/-- Whether the `LEGAL_SUFFIXES` regex matches starting at position `i`:
a word boundary, then one alternative case-insensitively, then only
whitespace up to the end of the string. -/
def suffixMatchAt (s : PyStr) (i : ℕ) : Bool :=
  (decide (i = 0) || !isWordChar (s.getD (i - 1) ' ')) &&
  LEGAL_SUFFIX_ALTS.any (fun alt =>
    let a := str alt
    let rest := s.drop i
    pyLower (rest.take a.length) = pyLower a &&
    decide (a.length ≤ rest.length) &&
    (rest.drop a.length).all isSpace)

/-- `LEGAL_SUFFIXES.sub("", cleaned)`: remove the leftmost (hence only)
match, which always extends to the end of the string. -/
def stripLegalSuffix (s : PyStr) : PyStr :=
  match (List.range (s.length + 1)).find? (fun i => suffixMatchAt s i) with
  | some i => s.take i
  | none => s

/-- Worker for `collapseWs`; the flag records whether the previous character
was inside a whitespace run (whose single replacement space was already
emitted). -/
def collapseWsAux : Bool → PyStr → PyStr
  | _, [] => []
  | inRun, c :: cs =>
    if isSpace c then
      if inRun then collapseWsAux true cs
      else ' ' :: collapseWsAux true cs
    else c :: collapseWsAux false cs

/-- `re.sub(r'\s+', ' ', s)`: collapse every whitespace run to one space. -/
def collapseWs (s : PyStr) : PyStr := collapseWsAux false s

/-- `normalize_company_name`: strip, remove a trailing legal suffix, strip
again, collapse whitespace, lowercase. -/
def normalize_company_name (name : PyStr) : PyStr :=
  if name.isEmpty then []
  else pyLower (collapseWs (pyStrip (stripLegalSuffix (pyStrip name))))

/-- The inner loop of the Wagner–Fischer row update in
`levenshtein_distance`: `last` is the previously appended cell, the list of
naturals is the tail of the previous row starting at `prev_row[j]`. -/
def levStepGo (c1 : Char) : ℕ → List Char → List ℕ → List ℕ
  | last, c2 :: cs, p0 :: p1 :: ps =>
    let v := min (p1 + 1) (min (last + 1) (p0 + (if c1 = c2 then 0 else 1)))
    v :: levStepGo c1 v cs (p1 :: ps)
  | _, _, _ => []

/-- One row update of the DP (`curr_row` built from `prev_row` and `c1`). -/
def levStep (c1 : Char) (s2 : PyStr) (prev : List ℕ) : List ℕ :=
  let first := prev.headD 0 + 1
  first :: levStepGo c1 first s2 prev

/-- The DP of `levenshtein_distance` after the argument swap: assumes
`s2.length ≤ s1.length`. -/
def levCore (s1 s2 : PyStr) : ℕ :=
  if s2.length = 0 then s1.length
  else
    (s1.foldl (fun prev c1 => levStep c1 s2 prev)
      (List.range (s2.length + 1))).getLastD 0

/-- `levenshtein_distance(s1, s2)` from the quality-assurance module. -/
def levenshtein_distance (s1 s2 : PyStr) : ℕ :=
  if s1.length < s2.length then levCore s2 s1 else levCore s1 s2

/-- A raw `companies` row as the QA sweep sees it: the full column dict. -/
abbrev QCompany := AttrMap

/-- `c.get("data_confidence") or 0` (the stored confidences are numeric). -/
def qConf (c : QCompany) : ℚ :=
  match getCol c "data_confidence" with
  | some (.n q) => q
  | _ => 0

/-- `sum(1 for v in c.values() if v is not None)`. -/
def qFieldCount (c : QCompany) : ℕ :=
  (c.filter (fun p => p.2.isSome)).length

/-- `c.get("company_name", "")` (a null name normalizes to `""` exactly as
`None` does in `normalize_company_name`). -/
def qName (c : QCompany) : PyStr :=
  match getCol c "company_name" with
  | some (.s v) => v
  | _ => []

/-- `c["id"]`; QA rows are fetched from the store, whose primary key is
always present and non-null. -/
def qId (c : QCompany) : Val :=
  (getCol c "id").getD (.s [])

/-- Python string comparison, lexicographic on code points. -/
def strLE : PyStr → PyStr → Bool
  | [], _ => true
  | _ :: _, [] => false
  | a :: as_, b :: bs => if a = b then strLE as_ bs else decide (a < b)

/-- The order `sorted` uses on ids (stored ids are homogeneous, so the
cross-constructor cases are never exercised). -/
def valLE : Val → Val → Bool
  | .n a, .n b => decide (a ≤ b)
  | .s a, .s b => strLE a b
  | .n _, .s _ => true
  | .s _, .n _ => false

/-- `tuple(sorted([id1, id2]))`. -/
def pairKey (a b : Val) : Val × Val :=
  if valLE a b then (a, b) else (b, a)

/-- The inner (`j > i`) loop of `QualityAssurance.find_duplicates`: compare
`c1` (with normalized name `n1`) against every later company, threading the
`seen_pairs` set. -/
def findDupsInner (c1 : QCompany) (n1 : PyStr) :
    List QCompany → List (Val × Val) →
    List (QCompany × QCompany × ℕ) × List (Val × Val)
  | [], seen => ([], seen)
  | c2 :: rest, seen =>
    let n2 := normalize_company_name (qName c2)
    if n2.length < 3 then findDupsInner c1 n1 rest seen
    else if 2 < ((n1.length : ℤ) - (n2.length : ℤ)).natAbs then
      findDupsInner c1 n1 rest seen
    else
      let dist := levenshtein_distance n1 n2
      if dist ≤ 2 ∧ dist < max n1.length n2.length then
        let key := pairKey (qId c1) (qId c2)
        if key ∈ seen then findDupsInner c1 n1 rest seen
        else
          let r := findDupsInner c1 n1 rest (key :: seen)
          ((c1, c2, dist) :: r.1, r.2)
      else findDupsInner c1 n1 rest seen

/-- The outer loop of `find_duplicates`, skipping companies whose normalized
name is empty or shorter than 3 characters. -/
def findDupsOuter :
    List QCompany → List (Val × Val) →
    List (QCompany × QCompany × ℕ) × List (Val × Val)
  | [], seen => ([], seen)
  | c1 :: rest, seen =>
    let n1 := normalize_company_name (qName c1)
    if n1.length < 3 then findDupsOuter rest seen
    else
      let r := findDupsInner c1 n1 rest seen
      let r2 := findDupsOuter rest r.2
      (r.1 ++ r2.1, r2.2)

/-- `QualityAssurance.find_duplicates`. -/
def find_duplicates (companies : List QCompany) :
    List (QCompany × QCompany × ℕ) :=
  (findDupsOuter companies []).1

/-- The `fillable_fields` list of `QualityAssurance.merge_duplicates`. -/
def fillable_fields : List String :=
  ["sector", "headquarters_city", "headquarters_address",
   "ownership_type", "parent_company", "website_url",
   "description", "employee_count", "year_founded",
   "capital_mad", "ice_number", "legal_form"]

/-- The keeper selection of `merge_duplicates`, exactly as written:
`conf1 >= conf2 or (conf1 == conf2 and fields1 >= fields2)` (the second
disjunct is subsumed by the first). -/
def mergeKeeper (c1 c2 : QCompany) : QCompany × QCompany :=
  if qConf c1 ≥ qConf c2 ∨ (qConf c1 = qConf c2 ∧ qFieldCount c1 ≥ qFieldCount c2)
  then (c1, c2) else (c2, c1)

/-- The merge update dict: every fillable field null on the keeper snapshot
and non-null on the duplicate snapshot. -/
def mergeUpdateData (keeper dup : QCompany) : AttrMap :=
  fillable_fields.filterMap (fun f =>
    if getCol keeper f = none ∧ (getCol dup f).isSome then
      some (f, getCol dup f)
    else none)

/-- One iteration of the `merge_duplicates` loop: in commit mode apply the
update to every table row with the keeper's id; in dry-run mode only count. -/
def mergeOne (commit : Bool) (table : List QCompany) (count : ℕ)
    (c1 c2 : QCompany) : ℕ × List QCompany :=
  let kd := mergeKeeper c1 c2
  let upd := mergeUpdateData kd.1 kd.2
  if commit ∧ ¬upd.isEmpty then
    (count + 1, table.map (fun r =>
      if getCol r "id" = getCol kd.1 "id" then applyUpd r upd else r))
  else if ¬upd.isEmpty then (count + 1, table)
  else (count, table)

/-- `QualityAssurance.merge_duplicates` over a candidate list produced by
`find_duplicates` (whose row snapshots the update dicts are computed from),
returning `merged_count` and the updated table. -/
def merge_duplicates (commit : Bool) (table : List QCompany)
    (dups : List (QCompany × QCompany × ℕ)) : ℕ × List QCompany :=
  dups.foldl (fun acc d => mergeOne commit acc.2 acc.1 d.1 d.2.1) (0, table)

/-! ## The Entity Matcher as the specification words it

Stated only to compare against `find_matching_company` for the refinement
claim about §4.1: normalize the candidate (strip legal-entity suffixes,
collapse whitespace, lowercase), query the store for names containing the
normalized substring case-insensitively, scoped by the city when one is
present, prefer an exact case-insensitive match among the candidates,
otherwise take the first candidate, and return none when there is none. -/

/-- The §4.1 matcher contract, following the specification's words. -/
def specEntityMatcherFind (companies : List CompanyRow) (name : PyStr)
    (city : Option PyStr) : Option ℕ :=
  let norm := normalize_company_name name
  if norm.isEmpty then none
  else
    match companies.filter (fun r =>
        (match rowName r with
         | some nm => containsCI nm norm
         | none => false) &&
        (match city with
         | some ct => decide (getCol r.attrs "headquarters_city" = some (.s ct))
         | none => true)) with
    | [] => none
    | c :: cs =>
      match (c :: cs).find? (fun r =>
          match rowName r with
          | some nm => pyLower nm = norm
          | none => false) with
      | some r => some r.company_id
      | none => some c.company_id

/-! ## Concrete fixtures used by witnesses and counterexamples -/

/-- The processing status of an article, as read back from the store. -/
def articleStatus (st : Store) (aid : ℕ) : Option PyStr :=
  (st.articles.find? (fun a => a.id = aid)).map (fun a => a.processing_status)

/-- The number of stored edges carrying a given
`(source, target, relationship_type)` triple — the quantity whose uniqueness
the relationship writer maintains (its existence probe uses exactly this
filter). -/
def countTriple (rels : List RelRow) (s t : ℕ) (ty : PyStr) : ℕ :=
  (rels.filter (fun r =>
    r.source_company_id = s && r.target_company_id = t &&
    r.relationship_type = ty)).length

/-- Relationship list used by the C4 witness: a duplicate edge and a
self-loop around one genuine edge. -/
def c4w_rels : List Rel :=
  [{ source_company := str "A", target_company := str "B",
     relationship_type := str "partner" },
   { source_company := str "A", target_company := str "B",
     relationship_type := str "partner" },
   { source_company := str "A", target_company := str "A",
     relationship_type := str "partner" }]

/-- Name resolution map used by the C4 witness. -/
def c4w_map : List (PyStr × ℕ) := [(str "A", 1), (str "B", 2)]

/-- Placeholder row used by positional (`getD`) statements about the
companies table; never reached when the index is in bounds. -/
def defaultRow : CompanyRow :=
  { company_id := 0, attrs := [], data_confidence := 0, created_at := 0,
    updated_at := 0 }

/-- A store with every table empty. -/
def emptyStore : Store :=
  { companies := [], sectors := [], valueChainStages := [], events := [],
    relationships := [], partnerships := [], companyArticles := [],
    companyPeople := [], reviewQueue := [], articles := [], nextId := 0 }

/-- One stored company named `Acme`. -/
def c5_store : List CompanyRow :=
  [{ company_id := 1, attrs := [("company_name", some (.s (str "Acme")))],
     data_confidence := 1, created_at := 0, updated_at := 0 }]

/-- Two stored companies that share a name but sit in different cities. -/
def c5_store_city : List CompanyRow :=
  [{ company_id := 1,
     attrs := [("company_name", some (.s (str "Beta"))),
               ("headquarters_city", some (.s (str "Rabat")))],
     data_confidence := 1, created_at := 0, updated_at := 0 },
   { company_id := 2,
     attrs := [("company_name", some (.s (str "Beta"))),
               ("headquarters_city", some (.s (str "Casablanca")))],
     data_confidence := 1, created_at := 0, updated_at := 0 }]

/-- A store holding one company whose `employee_count` is the non-null
falsy value `0`. -/
def c2_store : Store :=
  { emptyStore with companies :=
      [{ company_id := 1,
         attrs := [("company_name", some (.s (str "Acme"))),
                   ("employee_count", some (.n 0))],
         data_confidence := 0, created_at := 0, updated_at := 0 }] }

/-- An entity re-observing `Acme` with a positive employee count. -/
def c2_entity : Entity :=
  { company_name := some (str "Acme"), employee_count := some 5 }

/-- A QA row snapshot that is missing its sector. -/
def c2_qkeeper : QCompany :=
  [("id", some (.n 1)), ("company_name", some (.s (str "aaaa"))),
   ("data_confidence", some (.n 1)), ("sector", none)]

/-- A lower-confidence duplicate snapshot carrying sector `x`. -/
def c2_qdup1 : QCompany :=
  [("id", some (.n 2)), ("company_name", some (.s (str "aaab"))),
   ("data_confidence", some (.n 0)), ("sector", some (.s (str "x")))]

/-- Another lower-confidence duplicate snapshot carrying sector `y`. -/
def c2_qdup2 : QCompany :=
  [("id", some (.n 3)), ("company_name", some (.s (str "aaac"))),
   ("data_confidence", some (.n 0)), ("sector", some (.s (str "y")))]

/-- The QA companies table holding only the keeper row. -/
def c2_qtable : List QCompany := [c2_qkeeper]

/-- Two QA rows whose normalized names are identical but shorter than three
characters. -/
def c6_qc1 : QCompany :=
  [("id", some (.n 1)), ("company_name", some (.s (str "AB")))]

/-- See `c6_qc1`. -/
def c6_qc2 : QCompany :=
  [("id", some (.n 2)), ("company_name", some (.s (str "AB")))]

/-- A QA row whose name normalizes to `"acme"` (suffix `SA` stripped). -/
def c6w_qc1 : QCompany :=
  [("id", some (.n 1)), ("company_name", some (.s (str "Acme SA")))]

/-- A QA row whose name normalizes to `"acme"` as well. -/
def c6w_qc2 : QCompany :=
  [("id", some (.n 2)), ("company_name", some (.s (str "Acme")))]

/-- A store holding one pending article, for exercising the router. -/
def c1w_store : Store :=
  { emptyStore with articles :=
      [{ id := 1, processing_status := str "pending", error_message := none }] }

/-- An extraction whose overall confidence 0.70 sits between the review and
auto-approve thresholds. -/
def c1w_ex : Extraction :=
  { entities := [], relationships := [], overall_confidence := 7 / 10 }

/-- A QA row with equal confidence and fewer non-null fields than
`c7_company_b`. -/
def c7_company_a : QCompany :=
  [("id", some (.n 1)), ("company_name", some (.s (str "Acme"))),
   ("data_confidence", some (.n 1)), ("sector", none),
   ("description", none)]

/-- A QA row with equal confidence and more non-null fields than
`c7_company_a`. -/
def c7_company_b : QCompany :=
  [("id", some (.n 2)), ("company_name", some (.s (str "Acme SA"))),
   ("data_confidence", some (.n 1)), ("sector", some (.s (str "Automotive"))),
   ("description", some (.s (str "makes things")))]

/-! ## Helper lemmas: characters and Python strings -/

lemma char_toNat_ofNat_valid (n : ℕ) (h : n.isValidChar) :
    (Char.ofNat n).toNat = n := by
  simp only [Char.ofNat, dif_pos h, Char.ofNatAux, Char.toNat, UInt32.toNat]
  simp

lemma char_eq_iff_toNat (d e : Char) : d = e ↔ d.toNat = e.toNat := by
  constructor
  · rintro rfl; rfl
  · intro h
    exact Char.eq_of_val_eq (UInt32.toNat.inj h)

lemma toLower_toNat_of_upper (c : Char) (h : 65 ≤ c.toNat ∧ c.toNat ≤ 90) :
    (Char.toLower c).toNat = c.toNat + 32 := by
  have hv : (c.toNat + 32).isValidChar := by left; omega
  simp only [Char.toLower, if_pos h]
  exact char_toNat_ofNat_valid _ hv

lemma toLower_of_not_upper (c : Char) (h : ¬(65 ≤ c.toNat ∧ c.toNat ≤ 90)) :
    Char.toLower c = c := by
  simp only [Char.toLower, if_neg h]

lemma isWhitespace_iff_toNat (c : Char) :
    c.isWhitespace = true ↔
      (c.toNat = 32 ∨ c.toNat = 9 ∨ c.toNat = 13 ∨ c.toNat = 10) := by
  simp only [Char.isWhitespace, Bool.or_eq_true, decide_eq_true_eq,
    char_eq_iff_toNat, Char.toNat]
  simp only [show (' '.val.toNat) = 32 from rfl, show ('\t'.val.toNat) = 9 from rfl,
    show ('\r'.val.toNat) = 13 from rfl, show ('\n'.val.toNat) = 10 from rfl]
  tauto

lemma isSpace_toLower (c : Char) : isSpace (Char.toLower c) = isSpace c := by
  unfold isSpace
  by_cases h : 65 ≤ c.toNat ∧ c.toNat ≤ 90
  · have h2 := toLower_toNat_of_upper c h
    have lhs : (Char.toLower c).isWhitespace = false := by
      rw [← Bool.not_eq_true, isWhitespace_iff_toNat]; omega
    have rhs : c.isWhitespace = false := by
      rw [← Bool.not_eq_true, isWhitespace_iff_toNat]; omega
    rw [lhs, rhs]
  · rw [toLower_of_not_upper c h]

lemma toLower_toLower (c : Char) :
    Char.toLower (Char.toLower c) = Char.toLower c := by
  by_cases h : 65 ≤ c.toNat ∧ c.toNat ≤ 90
  · have h2 := toLower_toNat_of_upper c h
    apply toLower_of_not_upper
    omega
  · simp only [toLower_of_not_upper c h]

lemma pyLower_pyLower (s : PyStr) : pyLower (pyLower s) = pyLower s := by
  unfold pyLower
  rw [List.map_map]
  exact List.map_congr_left (fun c _ => toLower_toLower c)

lemma dropWhile_head_not (p : α → Bool) (l : List α) :
    ∀ a, (l.dropWhile p).head? = some a → p a = false := by
  induction l with
  | nil => intro a h; simp [List.dropWhile] at h
  | cons x t ih =>
    intro a h
    by_cases hx : p x
    · rw [List.dropWhile_cons_of_pos hx] at h
      exact ih a h
    · rw [List.dropWhile_cons_of_neg hx] at h
      simp only [List.head?_cons, Option.some.injEq] at h
      subst h
      exact Bool.eq_false_iff.mpr hx

lemma dropWhile_of_head_not (p : α → Bool) (l : List α)
    (h : ∀ a, l.head? = some a → p a = false) : l.dropWhile p = l := by
  cases l with
  | nil => rfl
  | cons x t =>
    have := h x (by simp)
    rw [List.dropWhile_cons_of_neg (by simp [this])]

lemma dropWhile_idem (p : α → Bool) (l : List α) :
    (l.dropWhile p).dropWhile p = l.dropWhile p :=
  dropWhile_of_head_not p _ (dropWhile_head_not p l)

lemma getLast?_of_suffix {l w : List α} (h : l <:+ w) (hne : l ≠ []) :
    l.getLast? = w.getLast? := by
  obtain ⟨s, rfl⟩ := h
  rw [List.getLast?_append]
  cases hl : l.getLast? with
  | none => exact absurd (List.getLast?_eq_none_iff.mp hl) hne
  | some a => rfl

lemma pyStrip_pyLower (s : PyStr) : pyStrip (pyLower s) = pyLower (pyStrip s) := by
  unfold pyStrip pyLower
  have hcomp : (isSpace ∘ Char.toLower) = isSpace := by
    funext c
    exact isSpace_toLower c
  rw [List.dropWhile_map, hcomp, ← List.map_reverse, List.dropWhile_map, hcomp,
    ← List.map_reverse]

lemma pyStrip_idem (s : PyStr) : pyStrip (pyStrip s) = pyStrip s := by
  unfold pyStrip
  set t := s.dropWhile isSpace with ht
  set u := t.reverse.dropWhile isSpace with hu
  have hhead_t : ∀ a, t.head? = some a → isSpace a = false :=
    dropWhile_head_not isSpace s
  have hhead_u : ∀ a, u.head? = some a → isSpace a = false :=
    dropWhile_head_not isSpace t.reverse
  -- the reversed once-stripped string starts with a non-space character
  have hrev : ∀ a, u.reverse.head? = some a → isSpace a = false := by
    intro a ha
    rw [List.head?_reverse] at ha
    have hne : u ≠ [] := by
      intro h0
      rw [h0] at ha
      simp at ha
    have hsuf : u <:+ t.reverse := List.dropWhile_suffix isSpace
    have := getLast?_of_suffix hsuf hne
    rw [this, List.getLast?_reverse] at ha
    exact hhead_t a ha
  rw [dropWhile_of_head_not isSpace u.reverse hrev, List.reverse_reverse,
    dropWhile_of_head_not isSpace u hhead_u]

/-- The ILIKE pattern computed from an already-stripped candidate name is
just its lowercasing. -/
lemma pat_of_stripped (s : PyStr) :
    pyStrip (pyLower (pyStrip s)) = pyLower (pyStrip s) := by
  rw [pyStrip_pyLower, pyStrip_idem]

/-! ## Helper lemmas: rows and update dicts -/

lemma lookup_cons_ite {β : Type} (xk k : String) (xv : β) (t : List (String × β)) :
    List.lookup k ((xk, xv) :: t) = if k = xk then some xv else List.lookup k t := by
  rw [List.lookup_cons]
  by_cases h : k = xk
  · rw [if_pos h, show (k == xk) = true from beq_iff_eq.mpr h]
  · rw [if_neg h, show (k == xk) = false from beq_eq_false_iff_ne.mpr h]

lemma lookup_eq_none_of_not_any (a : AttrMap) (k : String)
    (h : a.any (fun p => p.1 = k) = false) : a.lookup k = none := by
  induction a with
  | nil => rfl
  | cons x t ih =>
    obtain ⟨xk, xv⟩ := x
    simp only [List.any_cons, Bool.or_eq_false_iff, decide_eq_false_iff_not] at h
    rw [lookup_cons_ite, if_neg (fun hh => h.1 (by simp [hh.symm]))]
    exact ih h.2

lemma lookup_map_set_ne (a : AttrMap) (k k' : String) (v : Option Val)
    (hne : k' ≠ k) :
    (a.map (fun p => if p.1 = k then (p.1, v) else p)).lookup k' = a.lookup k' := by
  induction a with
  | nil => rfl
  | cons x t ih =>
    obtain ⟨xk, xv⟩ := x
    rw [List.map_cons]
    by_cases hk : xk = k
    · rw [if_pos (show (xk, xv).1 = k from hk)]
      rw [show ((xk, xv).1, v) = (xk, v) from rfl, lookup_cons_ite,
        lookup_cons_ite, if_neg (hk ▸ hne), if_neg (hk ▸ hne)]
      exact ih
    · rw [if_neg (show ¬(xk, xv).1 = k from hk), lookup_cons_ite, lookup_cons_ite]
      by_cases hk' : k' = xk
      · rw [if_pos hk', if_pos hk']
      · rw [if_neg hk', if_neg hk']
        exact ih

lemma lookup_map_set_eq (a : AttrMap) (k : String) (v : Option Val)
    (h : a.any (fun p => p.1 = k) = true) :
    (a.map (fun p => if p.1 = k then (p.1, v) else p)).lookup k = some v := by
  induction a with
  | nil => simp at h
  | cons x t ih =>
    obtain ⟨xk, xv⟩ := x
    rw [List.map_cons]
    by_cases hk : xk = k
    · rw [if_pos (show (xk, xv).1 = k from hk)]
      rw [show ((xk, xv).1, v) = (xk, v) from rfl, lookup_cons_ite, if_pos hk.symm]
    · simp only [List.any_cons, Bool.or_eq_true, decide_eq_true_eq] at h
      rcases h with h | h
      · exact absurd h hk
      · rw [if_neg (show ¬(xk, xv).1 = k from hk), lookup_cons_ite,
          if_neg (fun hh => hk hh.symm)]
        exact ih h

lemma getCol_setCol (a : AttrMap) (k k' : String) (v : Option Val) :
    getCol (setCol a k v) k' = if k' = k then v else getCol a k' := by
  unfold setCol getCol
  by_cases hany : a.any (fun p => p.1 = k) = true
  · rw [if_pos hany]
    by_cases hk : k' = k
    · subst hk
      rw [lookup_map_set_eq a k' v hany, if_pos rfl]
    · rw [lookup_map_set_ne a k k' v hk, if_neg hk]
  · rw [if_neg hany, List.lookup_append]
    by_cases hk : k' = k
    · subst hk
      rw [lookup_eq_none_of_not_any a k' (Bool.eq_false_iff.mpr hany), if_pos rfl]
      simp [List.lookup_cons]
    · rw [if_neg hk]
      have : List.lookup k' [(k, v)] = none := by
        rw [lookup_cons_ite, if_neg hk]
        rfl
      rw [this]
      cases a.lookup k' <;> rfl

lemma applyUpd_nil (a : AttrMap) : applyUpd a [] = a := rfl

lemma getCol_applyUpd_not_mem (a : AttrMap) (upd : AttrMap) (k : String)
    (h : k ∉ upd.map Prod.fst) :
    getCol (applyUpd a upd) k = getCol a k := by
  induction upd generalizing a with
  | nil => rfl
  | cons x t ih =>
    simp only [List.map_cons, List.mem_cons] at h
    push_neg at h
    unfold applyUpd
    simp only [List.foldl_cons]
    rw [show (t.foldl (fun acc p => setCol acc p.1 p.2) (setCol a x.1 x.2)) =
        applyUpd (setCol a x.1 x.2) t from rfl, ih _ h.2, getCol_setCol,
      if_neg h.1]

lemma getCol_applyUpd_mem (a : AttrMap) (upd : AttrMap) (k : String)
    (v : Option Val) (hnodup : (upd.map Prod.fst).Nodup)
    (hmem : (k, v) ∈ upd) :
    getCol (applyUpd a upd) k = v := by
  induction upd generalizing a with
  | nil => simp at hmem
  | cons x t ih =>
    simp only [List.map_cons, List.nodup_cons] at hnodup
    unfold applyUpd
    simp only [List.foldl_cons]
    rcases List.mem_cons.mp hmem with h | h
    · subst h
      rw [show (t.foldl (fun acc p => setCol acc p.1 p.2) (setCol a k v)) =
          applyUpd (setCol a k v) t from rfl,
        getCol_applyUpd_not_mem _ t k (by simpa using hnodup.1),
        getCol_setCol, if_pos rfl]
    · exact ih _ hnodup.2 h

/-! ## Helper lemmas: which tables each write touches -/

/-- `save_person` touches only `companyPeople` and the id counter. -/
lemma save_person_frame (acc : Store) (cid : ℕ) (p : PersonMention) (now : ℕ) :
    (save_person acc cid p now).companies = acc.companies ∧
    (save_person acc cid p now).sectors = acc.sectors ∧
    (save_person acc cid p now).valueChainStages = acc.valueChainStages ∧
    (save_person acc cid p now).events = acc.events ∧
    (save_person acc cid p now).relationships = acc.relationships ∧
    (save_person acc cid p now).partnerships = acc.partnerships ∧
    (save_person acc cid p now).companyArticles = acc.companyArticles ∧
    (save_person acc cid p now).reviewQueue = acc.reviewQueue ∧
    (save_person acc cid p now).articles = acc.articles := by
  unfold save_person
  dsimp only
  split
  · exact ⟨rfl, rfl, rfl, rfl, rfl, rfl, rfl, rfl, rfl⟩
  · split
    · exact ⟨rfl, rfl, rfl, rfl, rfl, rfl, rfl, rfl, rfl⟩
    · exact ⟨rfl, rfl, rfl, rfl, rfl, rfl, rfl, rfl, rfl⟩

/-- `save_management` touches only `companyPeople` and the id counter. -/
lemma save_management_frame (st : Store) (cid : ℕ) (ms : List PersonMention)
    (now : ℕ) :
    (save_management st cid ms now).companies = st.companies ∧
    (save_management st cid ms now).sectors = st.sectors ∧
    (save_management st cid ms now).valueChainStages = st.valueChainStages ∧
    (save_management st cid ms now).events = st.events ∧
    (save_management st cid ms now).relationships = st.relationships ∧
    (save_management st cid ms now).partnerships = st.partnerships ∧
    (save_management st cid ms now).companyArticles = st.companyArticles ∧
    (save_management st cid ms now).reviewQueue = st.reviewQueue ∧
    (save_management st cid ms now).articles = st.articles := by
  induction ms generalizing st with
  | nil => exact ⟨rfl, rfl, rfl, rfl, rfl, rfl, rfl, rfl, rfl⟩
  | cons p t ih =>
    have hstep : save_management st cid (p :: t) now =
        save_management (save_person st cid p now) cid t now := rfl
    rw [hstep]
    have h1 := ih (save_person st cid p now)
    have h2 := save_person_frame st cid p now
    exact ⟨h1.1.trans h2.1, h1.2.1.trans h2.2.1, h1.2.2.1.trans h2.2.2.1,
      h1.2.2.2.1.trans h2.2.2.2.1, h1.2.2.2.2.1.trans h2.2.2.2.2.1,
      h1.2.2.2.2.2.1.trans h2.2.2.2.2.2.1,
      h1.2.2.2.2.2.2.1.trans h2.2.2.2.2.2.2.1,
      h1.2.2.2.2.2.2.2.1.trans h2.2.2.2.2.2.2.2.1,
      h1.2.2.2.2.2.2.2.2.trans h2.2.2.2.2.2.2.2.2⟩

/-- `_link_article_to_company` touches only `companyArticles` and the id
counter. -/
lemma link_frame (st : Store) (cid aid : ℕ) (mt : PyStr) (now : ℕ) :
    (link_article_to_company st cid aid mt now).companies = st.companies ∧
    (link_article_to_company st cid aid mt now).sectors = st.sectors ∧
    (link_article_to_company st cid aid mt now).valueChainStages = st.valueChainStages ∧
    (link_article_to_company st cid aid mt now).events = st.events ∧
    (link_article_to_company st cid aid mt now).relationships = st.relationships ∧
    (link_article_to_company st cid aid mt now).partnerships = st.partnerships ∧
    (link_article_to_company st cid aid mt now).companyPeople = st.companyPeople ∧
    (link_article_to_company st cid aid mt now).reviewQueue = st.reviewQueue ∧
    (link_article_to_company st cid aid mt now).articles = st.articles :=
  ⟨rfl, rfl, rfl, rfl, rfl, rfl, rfl, rfl, rfl⟩

/-- The article link followed by the management save (the common tail of
both `upsert_company` branches) leaves every table except `companyArticles`
and `companyPeople` unchanged. -/
lemma after_link_save (st0 : Store) (cid cid2 aid : ℕ) (mt : PyStr)
    (ms : List PersonMention) (now now2 : ℕ) :
    (save_management (link_article_to_company st0 cid aid mt now) cid2 ms now2).companies = st0.companies ∧
    (save_management (link_article_to_company st0 cid aid mt now) cid2 ms now2).sectors = st0.sectors ∧
    (save_management (link_article_to_company st0 cid aid mt now) cid2 ms now2).valueChainStages = st0.valueChainStages ∧
    (save_management (link_article_to_company st0 cid aid mt now) cid2 ms now2).events = st0.events ∧
    (save_management (link_article_to_company st0 cid aid mt now) cid2 ms now2).relationships = st0.relationships ∧
    (save_management (link_article_to_company st0 cid aid mt now) cid2 ms now2).partnerships = st0.partnerships ∧
    (save_management (link_article_to_company st0 cid aid mt now) cid2 ms now2).reviewQueue = st0.reviewQueue ∧
    (save_management (link_article_to_company st0 cid aid mt now) cid2 ms now2).articles = st0.articles := by
  have hl := link_frame st0 cid aid mt now
  have hm := save_management_frame (link_article_to_company st0 cid aid mt now)
    cid2 ms now2
  exact ⟨hm.1.trans hl.1, hm.2.1.trans hl.2.1, hm.2.2.1.trans hl.2.2.1,
    hm.2.2.2.1.trans hl.2.2.2.1, hm.2.2.2.2.1.trans hl.2.2.2.2.1,
    hm.2.2.2.2.2.1.trans hl.2.2.2.2.2.1,
    hm.2.2.2.2.2.2.2.1.trans hl.2.2.2.2.2.2.2.1,
    hm.2.2.2.2.2.2.2.2.trans hl.2.2.2.2.2.2.2.2⟩

/-- The update branch of `upsert_company` touches only `companies`,
`companyArticles`, `companyPeople` and the id counter. -/
lemma upsert_company_update_frame (st : Store) (e : Entity) (aid : ℕ) (c : ℚ)
    (now : ℕ) (nm : PyStr) (eid : ℕ) :
    (upsert_company_update st e aid c now nm eid).2.sectors = st.sectors ∧
    (upsert_company_update st e aid c now nm eid).2.valueChainStages = st.valueChainStages ∧
    (upsert_company_update st e aid c now nm eid).2.events = st.events ∧
    (upsert_company_update st e aid c now nm eid).2.relationships = st.relationships ∧
    (upsert_company_update st e aid c now nm eid).2.partnerships = st.partnerships ∧
    (upsert_company_update st e aid c now nm eid).2.reviewQueue = st.reviewQueue ∧
    (upsert_company_update st e aid c now nm eid).2.articles = st.articles := by
  unfold upsert_company_update
  dsimp only
  split
  · exact ⟨rfl, rfl, rfl, rfl, rfl, rfl, rfl⟩
  · exact ⟨(after_link_save _ _ _ _ _ _ _ _).2.1,
      (after_link_save _ _ _ _ _ _ _ _).2.2.1,
      (after_link_save _ _ _ _ _ _ _ _).2.2.2.1,
      (after_link_save _ _ _ _ _ _ _ _).2.2.2.2.1,
      (after_link_save _ _ _ _ _ _ _ _).2.2.2.2.2.1,
      (after_link_save _ _ _ _ _ _ _ _).2.2.2.2.2.2.1,
      (after_link_save _ _ _ _ _ _ _ _).2.2.2.2.2.2.2⟩

/-- The insert branch of `upsert_company` touches only `companies`,
`companyArticles`, `companyPeople` and the id counter. -/
lemma upsert_company_insert_frame (st : Store) (e : Entity) (aid : ℕ) (c : ℚ)
    (now : ℕ) (nm : PyStr) :
    (upsert_company_insert st e aid c now nm).2.sectors = st.sectors ∧
    (upsert_company_insert st e aid c now nm).2.valueChainStages = st.valueChainStages ∧
    (upsert_company_insert st e aid c now nm).2.events = st.events ∧
    (upsert_company_insert st e aid c now nm).2.relationships = st.relationships ∧
    (upsert_company_insert st e aid c now nm).2.partnerships = st.partnerships ∧
    (upsert_company_insert st e aid c now nm).2.reviewQueue = st.reviewQueue ∧
    (upsert_company_insert st e aid c now nm).2.articles = st.articles :=
  ⟨(after_link_save _ _ _ _ _ _ _ _).2.1,
   (after_link_save _ _ _ _ _ _ _ _).2.2.1,
   (after_link_save _ _ _ _ _ _ _ _).2.2.2.1,
   (after_link_save _ _ _ _ _ _ _ _).2.2.2.2.1,
   (after_link_save _ _ _ _ _ _ _ _).2.2.2.2.2.1,
   (after_link_save _ _ _ _ _ _ _ _).2.2.2.2.2.2.1,
   (after_link_save _ _ _ _ _ _ _ _).2.2.2.2.2.2.2⟩

/-- `upsert_company` touches only `companies`, `companyArticles`,
`companyPeople` and the id counter. -/
lemma upsert_company_frame (st : Store) (e : Entity) (aid : ℕ) (c : ℚ) (now : ℕ) :
    (upsert_company st e aid c now).2.sectors = st.sectors ∧
    (upsert_company st e aid c now).2.valueChainStages = st.valueChainStages ∧
    (upsert_company st e aid c now).2.events = st.events ∧
    (upsert_company st e aid c now).2.relationships = st.relationships ∧
    (upsert_company st e aid c now).2.partnerships = st.partnerships ∧
    (upsert_company st e aid c now).2.reviewQueue = st.reviewQueue ∧
    (upsert_company st e aid c now).2.articles = st.articles := by
  unfold upsert_company
  dsimp only
  split
  · exact ⟨rfl, rfl, rfl, rfl, rfl, rfl, rfl⟩
  · split
    · exact upsert_company_update_frame st e aid c now _ _
    · exact upsert_company_insert_frame st e aid c now _

/-- `insert_event` touches only `events` and the id counter. -/
lemma insert_event_frame (st : Store) (e : Entity) (cid : ℕ) (url : PyStr)
    (c : ℚ) (now : ℕ) :
    (insert_event st e cid url c now).2.companies = st.companies ∧
    (insert_event st e cid url c now).2.relationships = st.relationships ∧
    (insert_event st e cid url c now).2.reviewQueue = st.reviewQueue ∧
    (insert_event st e cid url c now).2.articles = st.articles :=
  ⟨rfl, rfl, rfl, rfl⟩

/-- `insertOneRel` touches only `relationships`, `partnerships` and the id
counter. -/
lemma insertOneRel_frame (st : Store) (n : ℕ) (rel : Rel)
    (m : List (PyStr × ℕ)) (url : PyStr) (c : ℚ) (now : ℕ) :
    (insertOneRel st n rel m url c now).2.companies = st.companies ∧
    (insertOneRel st n rel m url c now).2.events = st.events ∧
    (insertOneRel st n rel m url c now).2.reviewQueue = st.reviewQueue ∧
    (insertOneRel st n rel m url c now).2.articles = st.articles := by
  unfold insertOneRel insert_legacy_partnership
  dsimp only
  split
  · split
    · exact ⟨rfl, rfl, rfl, rfl⟩
    · split
      · exact ⟨rfl, rfl, rfl, rfl⟩
      · split
        · split
          · exact ⟨rfl, rfl, rfl, rfl⟩
          · exact ⟨rfl, rfl, rfl, rfl⟩
        · exact ⟨rfl, rfl, rfl, rfl⟩
  · exact ⟨rfl, rfl, rfl, rfl⟩

/-- `insert_relationships` touches only `relationships`, `partnerships` and
the id counter. -/
lemma insert_relationships_frame (st : Store) (rels : List Rel)
    (m : List (PyStr × ℕ)) (url : PyStr) (c : ℚ) (now : ℕ) :
    (insert_relationships st rels m url c now).2.companies = st.companies ∧
    (insert_relationships st rels m url c now).2.events = st.events ∧
    (insert_relationships st rels m url c now).2.reviewQueue = st.reviewQueue ∧
    (insert_relationships st rels m url c now).2.articles = st.articles := by
  unfold insert_relationships
  suffices h : ∀ (acc : ℕ × Store),
      (rels.foldl (fun a rel => insertOneRel a.2 a.1 rel m url c now) acc).2.companies = acc.2.companies ∧
      (rels.foldl (fun a rel => insertOneRel a.2 a.1 rel m url c now) acc).2.events = acc.2.events ∧
      (rels.foldl (fun a rel => insertOneRel a.2 a.1 rel m url c now) acc).2.reviewQueue = acc.2.reviewQueue ∧
      (rels.foldl (fun a rel => insertOneRel a.2 a.1 rel m url c now) acc).2.articles = acc.2.articles by
    exact h (0, st)
  induction rels with
  | nil => exact fun acc => ⟨rfl, rfl, rfl, rfl⟩
  | cons rel t ih =>
    intro acc
    have h1 := ih (insertOneRel acc.2 acc.1 rel m url c now)
    have h2 := insertOneRel_frame acc.2 acc.1 rel m url c now
    exact ⟨h1.1.trans h2.1, h1.2.1.trans h2.2.1, h1.2.2.1.trans h2.2.2.1,
      h1.2.2.2.trans h2.2.2.2⟩

/-- The auto-approve entity loop never touches the review queue or the
articles table. -/
lemma processOneEntity_frame (acc : List (PyStr × ℕ) × Store) (e : Entity)
    (aid : ℕ) (url : PyStr) (c : ℚ) (now : ℕ) :
    (processOneEntity acc e aid url c now).2.reviewQueue = acc.2.reviewQueue ∧
    (processOneEntity acc e aid url c now).2.articles = acc.2.articles := by
  unfold processOneEntity
  dsimp only
  split
  · exact ⟨rfl, rfl⟩
  · have hu := upsert_company_frame acc.2 e aid (e.confidence_score.getD c) now
    split
    · exact ⟨hu.2.2.2.2.2.1, hu.2.2.2.2.2.2⟩
    · rename_i cid heq
      split
      · have he := insert_event_frame
          (upsert_company acc.2 e aid (e.confidence_score.getD c) now).2 e cid url
          (e.confidence_score.getD c) now
        exact ⟨he.2.2.1.trans hu.2.2.2.2.2.1, he.2.2.2.trans hu.2.2.2.2.2.2⟩
      · exact ⟨hu.2.2.2.2.2.1, hu.2.2.2.2.2.2⟩

/-- `processEntities` never touches the review queue or the articles table. -/
lemma processEntities_frame (st : Store) (es : List Entity) (aid : ℕ)
    (url : PyStr) (c : ℚ) (now : ℕ) :
    (processEntities st es aid url c now).2.reviewQueue = st.reviewQueue ∧
    (processEntities st es aid url c now).2.articles = st.articles := by
  unfold processEntities
  suffices h : ∀ (acc : List (PyStr × ℕ) × Store),
      (es.foldl (fun a e => processOneEntity a e aid url c now) acc).2.reviewQueue = acc.2.reviewQueue ∧
      (es.foldl (fun a e => processOneEntity a e aid url c now) acc).2.articles = acc.2.articles by
    exact h ([], st)
  induction es with
  | nil => exact fun acc => ⟨rfl, rfl⟩
  | cons e t ih =>
    intro acc
    have h1 := ih (processOneEntity acc e aid url c now)
    have h2 := processOneEntity_frame acc e aid url c now
    exact ⟨h1.1.trans h2.1, h1.2.trans h2.2⟩

/-- `update_article_status` touches only the articles table, and every row
carrying the updated article id ends in the requested status. -/
lemma update_article_status_spec (st : Store) (aid : ℕ) (status : PyStr)
    (msg : Option PyStr) :
    (update_article_status st aid status msg).companies = st.companies ∧
    (update_article_status st aid status msg).events = st.events ∧
    (update_article_status st aid status msg).relationships = st.relationships ∧
    (update_article_status st aid status msg).reviewQueue = st.reviewQueue ∧
    ∀ a ∈ (update_article_status st aid status msg).articles,
      a.id = aid → a.processing_status = status := by
  refine ⟨rfl, rfl, rfl, rfl, ?_⟩
  intro a ha hid
  unfold update_article_status at ha
  simp only [List.mem_map] at ha
  obtain ⟨b, hb, hba⟩ := ha
  by_cases h : b.id = aid
  · rw [if_pos h] at hba
    rw [← hba]
  · rw [if_neg h] at hba
    exact absurd (hba ▸ hid) h

/-- Updating an article's status rewrites the status of exactly the rows
carrying that id, as seen through `articleStatus`. -/
lemma articleStatus_update (st : Store) (aid : ℕ) (status : PyStr)
    (msg : Option PyStr) :
    articleStatus (update_article_status st aid status msg) aid =
      (articleStatus st aid).map (fun _ => status) := by
  unfold articleStatus update_article_status
  dsimp only
  induction st.articles with
  | nil => rfl
  | cons a t ih =>
    rw [List.map_cons]
    by_cases h : a.id = aid
    · rw [if_pos h]
      rw [List.find?_cons_of_pos _ (by simpa using h),
        List.find?_cons_of_pos _ (by simpa using h)]
      rfl
    · rw [if_neg h]
      rw [List.find?_cons_of_neg _ (by simpa using h),
        List.find?_cons_of_neg _ (by simpa using h)]
      exact ih

/-! ## Claim C1 -/

/-- C1: the orchestrator's confidence gate.  The auto-accept branch is taken
iff `c ≥ 0.85`; the review branch (review-queue row appended, article marked
`extracted`) iff `0.65 ≤ c < 0.85`; the discard branch (article marked
`skipped`, no graph data written) iff `c < 0.65` — boundaries included
exactly as stated.  Each branch's effect on the graph tables, the review
queue and the article status is pinned down. -/
theorem c1_confidence_routing (st : Store) (article_id result_id : ℕ)
    (url : PyStr) (ex : Extraction) (now : ℕ) :
    ((routeOf ex.overall_confidence = .auto ↔ 85 / 100 ≤ ex.overall_confidence) ∧
     (routeOf ex.overall_confidence = .review ↔
        65 / 100 ≤ ex.overall_confidence ∧ ex.overall_confidence < 85 / 100) ∧
     (routeOf ex.overall_confidence = .discard ↔ ex.overall_confidence < 65 / 100)) ∧
    (ex.overall_confidence < 65 / 100 →
      (process_routing st article_id result_id url ex now).companies = st.companies ∧
      (process_routing st article_id result_id url ex now).events = st.events ∧
      (process_routing st article_id result_id url ex now).relationships = st.relationships ∧
      (process_routing st article_id result_id url ex now).reviewQueue = st.reviewQueue ∧
      articleStatus (process_routing st article_id result_id url ex now) article_id =
        (articleStatus st article_id).map (fun _ => str "skipped")) ∧
    (65 / 100 ≤ ex.overall_confidence → ex.overall_confidence < 85 / 100 →
      (process_routing st article_id result_id url ex now).companies = st.companies ∧
      (process_routing st article_id result_id url ex now).events = st.events ∧
      (process_routing st article_id result_id url ex now).relationships = st.relationships ∧
      (process_routing st article_id result_id url ex now).reviewQueue =
        st.reviewQueue ++
          [{ id := st.nextId, article_id := article_id,
             extraction_result_id := result_id,
             confidence_score := ex.overall_confidence,
             reason_flagged := str "Confidence score between thresholds",
             status := str "pending", created_at := now }] ∧
      articleStatus (process_routing st article_id result_id url ex now) article_id =
        (articleStatus st article_id).map (fun _ => str "extracted")) ∧
    (85 / 100 ≤ ex.overall_confidence →
      (process_routing st article_id result_id url ex now).reviewQueue = st.reviewQueue ∧
      articleStatus (process_routing st article_id result_id url ex now) article_id =
        (articleStatus st article_id).map (fun _ => str "extracted")) := by
  have h6585 : (65 / 100 : ℚ) ≤ 85 / 100 := by norm_num
  refine ⟨?_, ?_, ?_, ?_⟩
  · unfold routeOf CONFIDENCE_THRESHOLDS_auto_approve CONFIDENCE_THRESHOLDS_review_queue
    split_ifs with h1 h2
    · refine ⟨⟨fun _ => h1, fun _ => rfl⟩, ⟨fun h => ?_, fun h => ?_⟩,
        ⟨fun h => ?_, fun h => ?_⟩⟩
      · cases h
      · exact absurd h1 (not_le.mpr h.2)
      · cases h
      · exact absurd h (not_lt.mpr (h6585.trans h1))
    · refine ⟨⟨fun h => ?_, fun h => ?_⟩, ⟨fun _ => ⟨h2, not_le.mp h1⟩, fun _ => rfl⟩,
        ⟨fun h => ?_, fun h => ?_⟩⟩
      · cases h
      · exact absurd h h1
      · cases h
      · exact absurd h (not_lt.mpr h2)
    · refine ⟨⟨fun h => ?_, fun h => ?_⟩, ⟨fun h => ?_, fun h => ?_⟩,
        ⟨fun _ => not_le.mp h2, fun _ => rfl⟩⟩
      · cases h
      · exact absurd h h1
      · cases h
      · exact absurd h.1 h2
  · intro h
    unfold process_routing
    dsimp only
    have hn1 : ¬(ex.overall_confidence ≥ CONFIDENCE_THRESHOLDS_auto_approve) := by
      unfold CONFIDENCE_THRESHOLDS_auto_approve
      exact not_le.mpr (lt_of_lt_of_le h h6585)
    have hn2 : ¬(ex.overall_confidence ≥ CONFIDENCE_THRESHOLDS_review_queue) := by
      unfold CONFIDENCE_THRESHOLDS_review_queue
      exact not_le.mpr h
    rw [if_neg hn1, if_neg hn2]
    exact ⟨rfl, rfl, rfl, rfl, articleStatus_update st article_id _ _⟩
  · intro h65 h85
    unfold process_routing
    dsimp only
    have hn1 : ¬(ex.overall_confidence ≥ CONFIDENCE_THRESHOLDS_auto_approve) := by
      unfold CONFIDENCE_THRESHOLDS_auto_approve
      exact not_le.mpr h85
    have hp2 : ex.overall_confidence ≥ CONFIDENCE_THRESHOLDS_review_queue := by
      unfold CONFIDENCE_THRESHOLDS_review_queue
      exact h65
    rw [if_neg hn1, if_pos hp2]
    refine ⟨rfl, rfl, rfl, rfl, ?_⟩
    rw [articleStatus_update]
    rfl
  · intro h85
    unfold process_routing
    dsimp only
    have hp1 : ex.overall_confidence ≥ CONFIDENCE_THRESHOLDS_auto_approve := by
      unfold CONFIDENCE_THRESHOLDS_auto_approve
      exact h85
    rw [if_pos hp1]
    have hpe := processEntities_frame st ex.entities article_id url
      ex.overall_confidence now
    by_cases hrel : ex.relationships.isEmpty
    · rw [if_pos hrel]
      refine ⟨?_, ?_⟩
      · exact hpe.1
      · rw [articleStatus_update]
        unfold articleStatus
        rw [hpe.2]
    · rw [if_neg hrel]
      have hir := insert_relationships_frame
        (processEntities st ex.entities article_id url ex.overall_confidence now).2
        ex.relationships
        (processEntities st ex.entities article_id url ex.overall_confidence now).1
        url ex.overall_confidence now
      refine ⟨?_, ?_⟩
      · exact hir.2.2.1.trans hpe.1
      · rw [articleStatus_update]
        unfold articleStatus
        rw [hir.2.2.2.trans hpe.2]

/-- Witness for C1 at confidence 0.70: the review route is taken, the
article lands in status `extracted`, and no company row is written. -/
theorem c1_confidence_routing_witness :
    routeOf c1w_ex.overall_confidence = .review ∧
    articleStatus (process_routing c1w_store 1 2 [] c1w_ex 0) 1 =
      some (str "extracted") ∧
    (process_routing c1w_store 1 2 [] c1w_ex 0).companies = [] := by
  have h := c1_confidence_routing c1w_store 1 2 [] c1w_ex 0
  have h65 : (65 / 100 : ℚ) ≤ c1w_ex.overall_confidence := by
    norm_num [c1w_ex]
  have h85 : c1w_ex.overall_confidence < 85 / 100 := by
    norm_num [c1w_ex]
  have hrev := h.2.2.1 h65 h85
  refine ⟨h.1.2.1.mpr ⟨h65, h85⟩, ?_, ?_⟩
  · rw [hrev.2.2.2.2]
    rfl
  · rw [hrev.1]
    rfl

/-! ## Claim C10 -/

/-- C10: for every entity whose `company_name` is missing, null, or
whitespace-only, `upsert_company` returns `none` and performs no store
writes at all — the store is returned unchanged, so no company row, no
media-mention link and no management-person row is created or updated. -/
theorem c10_upsert_missing_name_writes_nothing (st : Store) (e : Entity)
    (article_id : ℕ) (confidence : ℚ) (now : ℕ)
    (h : (pyStrip (e.company_name.getD [])).isEmpty = true) :
    upsert_company st e article_id confidence now = (none, st) := by
  unfold upsert_company
  rw [if_pos h]

/-- Witness for C10 at a whitespace-only company name. -/
theorem c10_upsert_missing_name_writes_nothing_witness :
    (pyStrip ((Entity.mk (some (str "   ")) none none none none none none none
      none none none none none none [] none none none).company_name.getD [])).isEmpty = true ∧
    upsert_company emptyStore (Entity.mk (some (str "   ")) none none none none
      none none none none none none none none none [] none none none) 1 (1 / 2) 0 =
      (none, emptyStore) :=
  ⟨by decide,
   c10_upsert_missing_name_writes_nothing emptyStore _ 1 (1 / 2) 0 (by decide)⟩

/-! ## Claim C8 -/

/-- C8: `extract_company_data` rejects empty, whitespace-only and
shorter-than-20-characters (after trimming) article text with a synchronous
error before any external call, and truncates text longer than the 12,000
character ceiling instead of rejecting it. -/
theorem c8_input_validation (s : PyStr) :
    ((pyStrip s).isEmpty = true → validate_article_text s = .error .emptyText) ∧
    ((pyStrip s).isEmpty = false → (pyStrip s).length < 20 →
      validate_article_text s = .error (.tooShort (pyStrip s).length)) ∧
    (20 ≤ (pyStrip s).length →
      ((pyStrip s).length ≤ MAX_CHARS → validate_article_text s = .ok (pyStrip s)) ∧
      (MAX_CHARS < (pyStrip s).length →
        validate_article_text s = .ok ((pyStrip s).take MAX_CHARS))) := by
  have hstrip_empty : s.isEmpty = true → (pyStrip s).isEmpty = true := by
    intro hs
    rw [List.isEmpty_iff] at hs
    subst hs
    rfl
  refine ⟨?_, ?_, ?_⟩
  · intro h
    unfold validate_article_text
    rw [if_pos (by rw [h, Bool.or_true])]
  · intro h1 h2
    have hs : s.isEmpty = false := by
      cases hs : s.isEmpty with
      | true => rw [hstrip_empty hs] at h1; cases h1
      | false => rfl
    unfold validate_article_text
    rw [if_neg (by rw [hs, h1]; simp), if_pos h2]
  · intro h
    have h1 : (pyStrip s).isEmpty = false := by
      cases he : (pyStrip s).isEmpty with
      | true =>
        rw [List.isEmpty_iff] at he
        rw [he] at h
        simp at h
      | false => rfl
    have hs : s.isEmpty = false := by
      cases hs : s.isEmpty with
      | true => rw [hstrip_empty hs] at h1; cases h1
      | false => rfl
    constructor
    · intro hle
      unfold validate_article_text
      rw [if_neg (by rw [hs, h1]; simp), if_neg (not_lt.mpr h),
        if_neg (not_lt.mpr hle)]
    · intro hgt
      unfold validate_article_text
      rw [if_neg (by rw [hs, h1]; simp), if_neg (not_lt.mpr h), if_pos hgt]

/-- Witness for C8: a 7-character text is rejected as too short, and a
45-character text is accepted untruncated. -/
theorem c8_input_validation_witness :
    validate_article_text (str "Bonjour") = .error (.tooShort 7) ∧
    validate_article_text (str "Un article assez long pour la validation ok.") =
      .ok (pyStrip (str "Un article assez long pour la validation ok.")) := by
  constructor
  · have h := (c8_input_validation (str "Bonjour")).2.1 (by decide) (by decide)
    rw [h]
    rfl
  · exact ((c8_input_validation
      (str "Un article assez long pour la validation ok.")).2.2
      (by decide)).1 (by decide)

/-! ## Claim C7 -/

/-- C7: the QA merge keeper selection at the failing input — two snapshots
with equal confidence where the second has strictly more non-null fields.
The source keeps the first (`conf1 >= conf2` already holds), although the
specified tie-break says the keeper should be the more complete second
company. -/
theorem c7_keeper_tie_break_failing_input :
    qConf c7_company_a = qConf c7_company_b ∧
    qFieldCount c7_company_a < qFieldCount c7_company_b ∧
    (mergeKeeper c7_company_a c7_company_b).1 = c7_company_a := by
  decide

lemma clamp01_bounds (q : ℚ) : 0 ≤ clamp01 q ∧ clamp01 q ≤ 1 :=
  ⟨le_max_left 0 _, max_le (by norm_num) (min_le_left 1 q)⟩

lemma sum_bounds_of_unit (l : List ℚ) (h : ∀ x ∈ l, 0 ≤ x ∧ x ≤ 1) :
    0 ≤ l.sum ∧ l.sum ≤ l.length := by
  induction l with
  | nil => simp
  | cons x t ih =>
    have hx := h x (List.mem_cons_self x t)
    have ht := ih (fun y hy => h y (List.mem_cons_of_mem x hy))
    simp only [List.sum_cons, List.length_cons]
    constructor
    · linarith [ht.1]
    · push_cast
      linarith [ht.2]

lemma roundHalfEven_bounds (q : ℚ) :
    q - 1 / 2 ≤ (roundHalfEven q : ℚ) ∧ (roundHalfEven q : ℚ) ≤ q + 1 / 2 := by
  unfold roundHalfEven
  dsimp only
  have h1 : (Int.floor q : ℚ) ≤ q := Int.floor_le q
  have h2 : q < (Int.floor q : ℚ) + 1 := Int.lt_floor_add_one q
  split_ifs with hr1 hr2 hev
  · constructor <;> linarith
  · push_cast
    constructor <;> linarith
  · have hr : q - Int.floor q = 1 / 2 := le_antisymm (not_lt.mp hr2) (not_lt.mp hr1)
    constructor <;> linarith
  · have hr : q - Int.floor q = 1 / 2 := le_antisymm (not_lt.mp hr2) (not_lt.mp hr1)
    push_cast
    constructor <;> linarith

lemma pyRound2_unit (q : ℚ) (h0 : 0 ≤ q) (h1 : q ≤ 1) :
    0 ≤ pyRound2 q ∧ pyRound2 q ≤ 1 := by
  unfold pyRound2
  have hb := roundHalfEven_bounds (q * 100)
  have hge : (0 : ℤ) ≤ roundHalfEven (q * 100) := by
    by_contra hneg
    push_neg at hneg
    have : (roundHalfEven (q * 100) : ℚ) ≤ -1 := by
      have : roundHalfEven (q * 100) ≤ -1 := by omega
      exact_mod_cast this
    nlinarith [hb.1]
  have hle : roundHalfEven (q * 100) ≤ 100 := by
    by_contra hgt
    push_neg at hgt
    have : (101 : ℚ) ≤ (roundHalfEven (q * 100) : ℚ) := by
      have : (101 : ℤ) ≤ roundHalfEven (q * 100) := by omega
      exact_mod_cast this
    nlinarith [hb.2]
  constructor
  · have : (0 : ℚ) ≤ (roundHalfEven (q * 100) : ℚ) := by exact_mod_cast hge
    linarith
  · have : (roundHalfEven (q * 100) : ℚ) ≤ 100 := by exact_mod_cast hle
    linarith

lemma insert_legacy_partnership_rels (st : Store) (a b : ℕ) (ty d url : PyStr)
    (c : ℚ) (now : ℕ) :
    (insert_legacy_partnership st a b ty d url c now).relationships =
      st.relationships := by
  unfold insert_legacy_partnership
  split
  · rfl
  · rfl

/-- One `insert_relationships` iteration either skips (state and count
unchanged on the relationships table — every skip path returns the store
untouched) or appends exactly one new edge whose triple was absent and whose
endpoints differ. -/
lemma insertOneRel_step (st : Store) (n : ℕ) (rel : Rel)
    (m : List (PyStr × ℕ)) (url : PyStr) (c : ℚ) (now : ℕ) :
    ((insertOneRel st n rel m url c now).1 = n ∧
     (insertOneRel st n rel m url c now).2.relationships = st.relationships) ∨
    (∃ r : RelRow, (insertOneRel st n rel m url c now).1 = n + 1 ∧
      (insertOneRel st n rel m url c now).2.relationships =
        st.relationships ++ [r] ∧
      r.source_company_id ≠ r.target_company_id ∧
      countTriple st.relationships r.source_company_id r.target_company_id
        r.relationship_type = 0) := by
  have hzero : ∀ (s t : ℕ),
      ¬(st.relationships.any fun r =>
        decide (r.source_company_id = s) && decide (r.target_company_id = t) &&
          decide (r.relationship_type = rel.relationship_type)) = true →
      countTriple st.relationships s t rel.relationship_type = 0 := by
    intro s t hdup
    rw [List.any_eq_true] at hdup
    push_neg at hdup
    unfold countTriple
    rw [List.filter_eq_nil_iff.mpr]
    · rfl
    · intro a ha
      exact hdup a ha
  unfold insertOneRel
  dsimp only
  split
  · rename_i sid tid hsid htid
    split_ifs with heq hdup hleg
    · exact Or.inl ⟨rfl, rfl⟩
    · exact Or.inl ⟨rfl, rfl⟩
    · refine Or.inr ⟨({ id := st.nextId, source_company_id := sid,
                        target_company_id := tid,
                        relationship_type := rel.relationship_type,
                        description := rel.description, source_url := url,
                        confidence_score := c, status := str "active",
                        created_at := now } : RelRow),
        rfl, ?_, heq, hzero sid tid hdup⟩
      rw [insert_legacy_partnership_rels]
      rfl
    · exact Or.inr ⟨({ id := st.nextId, source_company_id := sid,
                       target_company_id := tid,
                       relationship_type := rel.relationship_type,
                       description := rel.description, source_url := url,
                       confidence_score := c, status := str "active",
                       created_at := now } : RelRow),
        rfl, rfl, heq, hzero sid tid hdup⟩
  · exact Or.inl ⟨rfl, rfl⟩

lemma countTriple_append (l1 l2 : List RelRow) (s t : ℕ) (ty : PyStr) :
    countTriple (l1 ++ l2) s t ty = countTriple l1 s t ty + countTriple l2 s t ty := by
  unfold countTriple
  rw [List.filter_append, List.length_append]

/-- The `insert_relationships` fold preserves triple-uniqueness, only adds
edges with distinct endpoints, and counts exactly the rows it appends. -/
lemma insert_relationships_fold_spec (rels : List Rel) (m : List (PyStr × ℕ))
    (url : PyStr) (c : ℚ) (now : ℕ) :
    ∀ (n0 : ℕ) (st : Store),
      (rels.foldl (fun a rel => insertOneRel a.2 a.1 rel m url c now)
        (n0, st)).2.relationships.length + n0 =
        st.relationships.length +
          (rels.foldl (fun a rel => insertOneRel a.2 a.1 rel m url c now)
            (n0, st)).1 ∧
      (∀ s t ty, countTriple st.relationships s t ty ≤ 1 →
        countTriple (rels.foldl (fun a rel => insertOneRel a.2 a.1 rel m url c now)
          (n0, st)).2.relationships s t ty ≤ 1) ∧
      (∀ r ∈ (rels.foldl (fun a rel => insertOneRel a.2 a.1 rel m url c now)
          (n0, st)).2.relationships,
        r ∉ st.relationships →
        r.source_company_id ≠ r.target_company_id) := by
  induction rels with
  | nil =>
    intro n0 st
    exact ⟨rfl, fun s t ty h => h, fun r hr hnr => absurd hr hnr⟩
  | cons rel rest ih =>
    intro n0 st
    rw [List.foldl_cons]
    dsimp only
    rcases insertOneRel_step st n0 rel m url c now with ⟨hn, hrels⟩ | ⟨r, hn, hrels, hne, hz⟩
    · have h := ih (insertOneRel st n0 rel m url c now).1
        (insertOneRel st n0 rel m url c now).2
      rw [show ((insertOneRel st n0 rel m url c now).1,
          (insertOneRel st n0 rel m url c now).2) =
          insertOneRel st n0 rel m url c now from rfl] at h
      refine ⟨?_, ?_, ?_⟩
      · rw [hn, hrels] at h
        exact h.1
      · intro s t ty hst
        apply h.2.1
        rw [hrels]
        exact hst
      · intro r hr hnr
        apply h.2.2 r hr
        rw [hrels]
        exact hnr
    · have h := ih (insertOneRel st n0 rel m url c now).1
        (insertOneRel st n0 rel m url c now).2
      rw [show ((insertOneRel st n0 rel m url c now).1,
          (insertOneRel st n0 rel m url c now).2) =
          insertOneRel st n0 rel m url c now from rfl] at h
      refine ⟨?_, ?_, ?_⟩
      · rw [hn, hrels] at h
        rw [List.length_append, List.length_singleton] at h
        omega
      · intro s t ty hst
        apply h.2.1
        rw [hrels, countTriple_append]
        by_cases hmatch : r.source_company_id = s ∧ r.target_company_id = t ∧
            r.relationship_type = ty
        · obtain ⟨rfl, rfl, rfl⟩ := hmatch
          rw [hz]
          have : countTriple [r] r.source_company_id r.target_company_id
              r.relationship_type ≤ 1 := by
            unfold countTriple
            exact le_trans (List.length_filter_le _ _) (by rfl)
          omega
        · have hone : countTriple [r] s t ty = 0 := by
            unfold countTriple
            rw [List.filter_eq_nil_iff.mpr]
            · rfl
            · intro a ha
              rw [List.mem_singleton] at ha
              subst ha
              intro hcontra
              simp only [Bool.and_eq_true, decide_eq_true_eq] at hcontra
              exact hmatch ⟨hcontra.1.1, hcontra.1.2, hcontra.2⟩
          omega
      · intro r' hr' hnr'
        by_cases hrold : r' ∈ st.relationships ++ [r]
        · rcases List.mem_append.mp hrold with hl | hl
          · exact absurd hl hnr'
          · rw [List.mem_singleton] at hl
            subst hl
            exact hne
        · apply h.2.2 r' hr'
          rw [hrels]
          exact hrold

/-! ## Claim C4 -/

/-- C4: `insert_relationships` preserves the at-most-one-edge-per-triple
invariant (a candidate whose resolved triple is already stored is silently
skipped, so re-inserting a triple leaves exactly one edge), never inserts an
edge whose endpoints resolve to the same company, and returns exactly the
number of rows actually inserted. -/
theorem c4_relationship_uniqueness (st : Store) (rels : List Rel)
    (m : List (PyStr × ℕ)) (url : PyStr) (c : ℚ) (now : ℕ) :
    (∀ s t ty, countTriple st.relationships s t ty ≤ 1 →
      countTriple (insert_relationships st rels m url c now).2.relationships
        s t ty ≤ 1) ∧
    (∀ r ∈ (insert_relationships st rels m url c now).2.relationships,
      r ∉ st.relationships → r.source_company_id ≠ r.target_company_id) ∧
    (insert_relationships st rels m url c now).2.relationships.length =
      st.relationships.length + (insert_relationships st rels m url c now).1 := by
  have h := insert_relationships_fold_spec rels m url c now 0 st
  refine ⟨h.2.1, h.2.2, ?_⟩
  have h1 := h.1
  unfold insert_relationships
  omega

/-- Witness for C4: re-inserting the `(A, B, partner)` triple and the
self-loop `(A, A, partner)` leaves exactly one stored edge. -/
theorem c4_relationship_uniqueness_witness :
    countTriple (insert_relationships emptyStore c4w_rels c4w_map [] 1 0).2.relationships
      1 2 (str "partner") ≤ 1 ∧
    (insert_relationships emptyStore c4w_rels c4w_map [] 1 0).2.relationships.length =
      emptyStore.relationships.length +
        (insert_relationships emptyStore c4w_rels c4w_map [] 1 0).1 := by
  have h := c4_relationship_uniqueness emptyStore c4w_rels c4w_map [] 1 0
  exact ⟨h.1 1 2 (str "partner") (by decide), h.2.2⟩

/-! ## Claim C9 -/

/-- C9: when the validated entity list is non-empty, the routed
`overall_confidence` is the arithmetic mean of the per-entity confidence
scores — each clamped to `[0, 1]` by `_validate_entity` — rounded to two
decimals; the LLM-reported `overall_confidence` field is ignored in that
case; and the result always lies in `[0, 1]`. -/
theorem c9_overall_confidence_mean (raw : RawExtraction)
    (h : raw.entities ≠ []) :
    (validate_extracted_data raw).overall_confidence =
      pyRound2 ((raw.entities.map validate_entity_confidence).sum /
        raw.entities.length) ∧
    (∀ oc : Option ℚ,
      (validate_extracted_data { raw with overall_confidence := oc }).overall_confidence =
        (validate_extracted_data raw).overall_confidence) ∧
    (validate_extracted_data raw).entities.map (fun e => e.confidence_score) =
      raw.entities.map (fun r => some (validate_entity_confidence r)) ∧
    (∀ r ∈ raw.entities,
      0 ≤ validate_entity_confidence r ∧ validate_entity_confidence r ≤ 1) ∧
    0 ≤ (validate_extracted_data raw).overall_confidence ∧
    (validate_extracted_data raw).overall_confidence ≤ 1 := by
  have hne : ((raw.entities.map validate_entity).isEmpty) = false := by
    rw [List.isEmpty_eq_false]
    simpa using h
  have hmean : (validate_extracted_data raw).overall_confidence =
      pyRound2 ((raw.entities.map validate_entity_confidence).sum /
        raw.entities.length) := by
    unfold validate_extracted_data
    dsimp only
    rw [if_neg (by rw [hne]; exact Bool.false_ne_true)]
  have hunit : ∀ r ∈ raw.entities,
      0 ≤ validate_entity_confidence r ∧ validate_entity_confidence r ≤ 1 :=
    fun r _ => clamp01_bounds _
  refine ⟨hmean, ?_, ?_, hunit, ?_⟩
  · intro oc
    have h2 : (validate_extracted_data
        { raw with overall_confidence := oc }).overall_confidence =
        pyRound2 ((raw.entities.map validate_entity_confidence).sum /
          raw.entities.length) := by
      unfold validate_extracted_data
      dsimp only
      rw [if_neg (by rw [hne]; exact Bool.false_ne_true)]
    rw [h2, hmean]
  · unfold validate_extracted_data
    dsimp only
    rw [List.map_map]
    rfl
  · have hsum := sum_bounds_of_unit (raw.entities.map validate_entity_confidence)
      (by
        intro x hx
        obtain ⟨r, hr, rfl⟩ := List.mem_map.mp hx
        exact hunit r hr)
    have hlen : (0 : ℚ) < raw.entities.length := by
      have : raw.entities.length ≠ 0 := by
        simpa using h
      have h1 : 0 < raw.entities.length := Nat.pos_of_ne_zero this
      exact_mod_cast h1
    have hlen' : ((raw.entities.map validate_entity_confidence).length : ℚ) =
        (raw.entities.length : ℚ) := by
      rw [List.length_map]
    have h0 : 0 ≤ (raw.entities.map validate_entity_confidence).sum /
        raw.entities.length := div_nonneg hsum.1 (le_of_lt hlen)
    have h1 : (raw.entities.map validate_entity_confidence).sum /
        raw.entities.length ≤ 1 := by
      rw [div_le_one hlen]
      calc (raw.entities.map validate_entity_confidence).sum
          ≤ (raw.entities.map validate_entity_confidence).length := hsum.2
        _ = (raw.entities.length : ℚ) := hlen'
    have := pyRound2_unit _ h0 h1
    rw [hmean]
    exact this

/-- Witness for C9 on a two-entity payload with scores 1 and 0: the routed
confidence is the rounded mean and sits in `[0, 1]`. -/
theorem c9_overall_confidence_mean_witness :
    (validate_extracted_data
      { entities := [{ confidence_score := some 1 }, { confidence_score := some 0 }],
        relationships := [], overall_confidence := some 0 }).overall_confidence =
      pyRound2 ((([{ confidence_score := some 1 },
        { confidence_score := some 0 }] : List RawEntity).map
          validate_entity_confidence).sum / 2) ∧
    0 ≤ (validate_extracted_data
      { entities := [{ confidence_score := some 1 }, { confidence_score := some 0 }],
        relationships := [], overall_confidence := some 0 }).overall_confidence ∧
    (validate_extracted_data
      { entities := [{ confidence_score := some 1 }, { confidence_score := some 0 }],
        relationships := [], overall_confidence := some 0 }).overall_confidence ≤ 1 := by
  have h := c9_overall_confidence_mean
    { entities := [{ confidence_score := some 1 }, { confidence_score := some 0 }],
      relationships := [], overall_confidence := some 0 }
    (by simp)
  exact ⟨h.1, h.2.2.2.2⟩

/-! ## Claim C5 (counterexample) -/

/-- C5 counterexample: the stored matcher does not behave as the
specification describes it.  (1) The candidate `"Acme SA"` fails to match
the stored `"Acme"` because `find_matching_company` never strips legal
suffixes, while the specified matcher resolves it.  (2) With two same-name
companies in different cities, the stored matcher ignores its city argument
and returns the first row, while the specified matcher scopes by city and
returns the Casablanca row. -/
theorem c5_counterexample :
    (find_matching_company c5_store (str "Acme SA") none = none ∧
     specEntityMatcherFind c5_store (str "Acme SA") none = some 1) ∧
    (find_matching_company c5_store_city (str "Beta") (some (str "Casablanca")) = some 1 ∧
     specEntityMatcherFind c5_store_city (str "Beta") (some (str "Casablanca")) = some 2) := by
  decide

/-- The candidate predicate of the matcher's store query. -/
def matcherCand (pat : PyStr) (r : CompanyRow) : Bool :=
  match rowName r with
  | some nm => containsCI nm pat
  | none => false

/-- The exact case-insensitive match predicate of the matcher. -/
def matcherExact (pat : PyStr) (r : CompanyRow) : Bool :=
  match rowName r with
  | some nm => decide (pyLower nm = pat)
  | none => false

/-- C5 (amended): what `find_matching_company` actually does.  The candidate
is only lowercased and trimmed (no legal-suffix stripping or whitespace
collapsing); the city argument is ignored; the result is none exactly when
the candidate is blank or no stored name contains the pattern
case-insensitively; an exact case-insensitive match is preferred when one
exists among the candidates; otherwise the first candidate row is returned.
The function reads the store and performs no writes. -/
theorem c5_matcher_amended :
    (∀ (cs : List CompanyRow) (name : PyStr) (city1 city2 : Option PyStr),
      find_matching_company cs name city1 = find_matching_company cs name city2) ∧
    (∀ (cs : List CompanyRow) (name : PyStr) (city : Option PyStr),
      find_matching_company cs name city = none ↔
        ((pyStrip name).isEmpty = true ∨
         ∀ r ∈ cs, matcherCand (pyStrip (pyLower name)) r = false)) ∧
    (∀ (cs : List CompanyRow) (name : PyStr) (city : Option PyStr),
      (pyStrip name).isEmpty = false →
      (∃ r ∈ cs, matcherExact (pyStrip (pyLower name)) r = true ∧
        matcherCand (pyStrip (pyLower name)) r = true) →
      ∃ r ∈ cs, matcherExact (pyStrip (pyLower name)) r = true ∧
        find_matching_company cs name city = some r.company_id) ∧
    (∀ (cs : List CompanyRow) (name : PyStr) (city : Option PyStr),
      (pyStrip name).isEmpty = false →
      (∀ r ∈ cs, matcherExact (pyStrip (pyLower name)) r = false) →
      (∃ r ∈ cs, matcherCand (pyStrip (pyLower name)) r = true) →
      ∃ l1 r l2, cs = l1 ++ r :: l2 ∧
        (∀ x ∈ l1, matcherCand (pyStrip (pyLower name)) x = false) ∧
        matcherCand (pyStrip (pyLower name)) r = true ∧
        find_matching_company cs name city = some r.company_id) := by
  have hcand : ∀ (pat : PyStr) (r : CompanyRow),
      (fun r : CompanyRow => match rowName r with
        | some nm => containsCI nm pat
        | none => false) r = matcherCand pat r := fun _ _ => rfl
  refine ⟨fun cs name c1 c2 => rfl, ?_, ?_, ?_⟩
  · intro cs name city
    unfold find_matching_company
    by_cases hstrip : (pyStrip name).isEmpty = true
    · rw [if_pos hstrip]
      simp [hstrip]
    · rw [if_neg hstrip]
      dsimp only
      rw [Bool.not_eq_true] at hstrip
      cases hfil : cs.filter (fun r => match rowName r with
          | some nm => containsCI nm (pyStrip (pyLower name))
          | none => false) with
      | nil =>
        have hfil' := List.filter_eq_nil_iff.mp hfil
        constructor
        · intro _
          right
          intro r hr
          have := hfil' r hr
          simpa [matcherCand] using this
        · intro _
          rfl
      | cons c cs' =>
        constructor
        · intro hcontra
          exfalso
          change (match (c :: cs').find? (fun r => match rowName r with
              | some nm => decide (pyLower nm = pyStrip (pyLower name))
              | none => false) with
            | some r => some r.company_id
            | none => some c.company_id) = none at hcontra
          cases hfind : (c :: cs').find? (fun r => match rowName r with
              | some nm => decide (pyLower nm = pyStrip (pyLower name))
              | none => false) with
          | some r => rw [hfind] at hcontra; cases hcontra
          | none => rw [hfind] at hcontra; cases hcontra
        · intro hor
          rcases hor with hs | hall
          · rw [hstrip] at hs; cases hs
          · exfalso
            have hc : c ∈ cs.filter (fun r => match rowName r with
                | some nm => containsCI nm (pyStrip (pyLower name))
                | none => false) := by rw [hfil]; exact List.mem_cons_self c cs'
            have := (List.mem_filter.mp hc)
            have h2 := hall c this.1
            cases this.2.symm.trans h2
  · intro cs name city hstrip hex
    obtain ⟨r0, hr0mem, hr0ex, hr0cand⟩ := hex
    unfold find_matching_company
    rw [if_neg (by rw [hstrip]; exact Bool.false_ne_true)]
    dsimp only
    cases hfil : cs.filter (fun r => match rowName r with
        | some nm => containsCI nm (pyStrip (pyLower name))
        | none => false) with
    | nil =>
      exfalso
      have : r0 ∈ cs.filter (fun r => match rowName r with
          | some nm => containsCI nm (pyStrip (pyLower name))
          | none => false) :=
        List.mem_filter.mpr ⟨hr0mem, hr0cand⟩
      rw [hfil] at this
      cases this
    | cons c cs' =>
      have hsome : ∃ x ∈ (c :: cs'), (fun r : CompanyRow => match rowName r with
          | some nm => decide (pyLower nm = pyStrip (pyLower name))
          | none => false) x = true := by
        refine ⟨r0, ?_, ?_⟩
        · rw [← hfil]
          exact List.mem_filter.mpr ⟨hr0mem, hr0cand⟩
        · exact hr0ex
      have := List.find?_isSome.mpr hsome
      cases hfind : (c :: cs').find? (fun r : CompanyRow => match rowName r with
          | some nm => decide (pyLower nm = pyStrip (pyLower name))
          | none => false) with
      | none => rw [hfind] at this; cases this
      | some r =>
        refine ⟨r, ?_, ?_, ?_⟩
        · have hmem := List.mem_of_find?_eq_some hfind
          rw [← hfil] at hmem
          exact (List.mem_filter.mp hmem).1
        · exact List.find?_some hfind
        · show (match (c :: cs').find? (fun r : CompanyRow => match rowName r with
              | some nm => decide (pyLower nm = pyStrip (pyLower name))
              | none => false) with
            | some r => some r.company_id
            | none => some c.company_id) = some r.company_id
          rw [hfind]
  · intro cs name city hstrip hnoexact hex
    obtain ⟨r0, hr0mem, hr0cand⟩ := hex
    unfold find_matching_company
    rw [if_neg (by rw [hstrip]; exact Bool.false_ne_true)]
    dsimp only
    cases hfil : cs.filter (fun r => match rowName r with
        | some nm => containsCI nm (pyStrip (pyLower name))
        | none => false) with
    | nil =>
      exfalso
      have : r0 ∈ cs.filter (fun r => match rowName r with
          | some nm => containsCI nm (pyStrip (pyLower name))
          | none => false) :=
        List.mem_filter.mpr ⟨hr0mem, hr0cand⟩
      rw [hfil] at this
      cases this
    | cons c cs' =>
      have hnone : (c :: cs').find? (fun r : CompanyRow => match rowName r with
          | some nm => decide (pyLower nm = pyStrip (pyLower name))
          | none => false) = none := by
        rw [List.find?_eq_none]
        intro x hx
        have hxmem : x ∈ cs := by
          rw [← hfil] at hx
          exact (List.mem_filter.mp hx).1
        have hxe := hnoexact x hxmem
        intro hcontr
        exact Bool.false_ne_true (hxe.symm.trans hcontr)
      obtain ⟨l1, l2, hdecomp, hl1, hc, _⟩ := List.filter_eq_cons_iff.mp hfil
      refine ⟨l1, c, l2, hdecomp, ?_, ?_, ?_⟩
      · intro x hx
        have hx1 := hl1 x hx
        rw [Bool.not_eq_true] at hx1
        exact hx1
      · exact hc
      · show (match (c :: cs').find? (fun r : CompanyRow => match rowName r with
            | some nm => decide (pyLower nm = pyStrip (pyLower name))
            | none => false) with
          | some r => some r.company_id
          | none => some c.company_id) = some c.company_id
        rw [hnone]

/-- Witness for C5 (amended): on the one-row `Acme` store the lowercased,
trimmed candidate `" ACME "` resolves to the stored row by exact
case-insensitive match. -/
theorem c5_matcher_amended_witness :
    find_matching_company c5_store (str " ACME ") none = some 1 := by
  have h := c5_matcher_amended.2.2.1 c5_store (str " ACME ") none (by decide)
    ⟨{ company_id := 1, attrs := [("company_name", some (.s (str "Acme")))],
       data_confidence := 1, created_at := 0, updated_at := 0 },
     by decide, by decide, by decide⟩
  obtain ⟨r, hrmem, hrex, hfind⟩ := h
  rw [hfind]
  have : r.company_id = 1 := by
    have : r ∈ c5_store := hrmem
    cases List.mem_singleton.mp this
    rfl
  rw [this]

/-! ## Claim C2 (counterexample) -/

/-- C2 counterexample.  (1) `upsert_company` overwrites a stored non-null
`employee_count` of `0` because the partial-fill test uses Python
truthiness, not nullness.  (2) When two QA candidate pairs share a keeper,
the second merge update overwrites the sector the first one filled — a
non-null value at the time of the update — because update sets are computed
from the scan-time snapshots. -/
theorem c2_counterexample :
    (c2_store.companies.map (fun r => getCol r.attrs "employee_count") =
       [some (.n 0)] ∧
     (upsert_company c2_store c2_entity 7 0 1).2.companies.map
       (fun r => getCol r.attrs "employee_count") = [some (.n 5)]) ∧
    ((merge_duplicates true c2_qtable [(c2_qkeeper, c2_qdup1, 1)]).2.map
       (fun r => getCol r "sector") = [some (.s (str "x"))] ∧
     (merge_duplicates true c2_qtable
        [(c2_qkeeper, c2_qdup1, 1), (c2_qkeeper, c2_qdup2, 1)]).2.map
       (fun r => getCol r "sector") = [some (.s (str "y"))]) := by
  decide

lemma buildCompanyData_keys_nodup (st : Store) (e : Entity) (nm : PyStr) :
    ((buildCompanyData st e nm).map Prod.fst).Nodup := by
  unfold buildCompanyData
  cases e.employee_count <;> cases e.revenue_mad <;>
    simp only [List.map_append, List.map_cons, List.map_nil, List.append_nil] <;>
    decide

lemma buildUpdateData_mem (cd : AttrMap) (cur : CompanyRow) (k : String)
    (v : Option Val) (h : (k, v) ∈ buildUpdateData cd cur) :
    truthy v = true ∧ truthy (getCol cur.attrs k) = false := by
  unfold buildUpdateData at h
  have := List.mem_filter.mp h
  have h2 := this.2
  simp only [Bool.and_eq_true, Bool.not_eq_true'] at h2
  exact h2

lemma buildUpdateData_keys_nodup (st : Store) (e : Entity) (nm : PyStr)
    (cur : CompanyRow) :
    ((buildUpdateData (buildCompanyData st e nm) cur).map Prod.fst).Nodup := by
  unfold buildUpdateData
  exact (buildCompanyData_keys_nodup st e nm).sublist
    ((List.filter_sublist _).map Prod.fst)

lemma mergeUpdateData_mem (keeper dup : QCompany) (f : String) (v : Option Val)
    (h : (f, v) ∈ mergeUpdateData keeper dup) :
    getCol keeper f = none := by
  unfold mergeUpdateData at h
  obtain ⟨f0, _, hf0⟩ := List.mem_filterMap.mp h
  by_cases hc : getCol keeper f0 = none ∧ (getCol dup f0).isSome = true
  · rw [if_pos hc] at hf0
    obtain ⟨rfl, -⟩ := Prod.mk.injEq .. ▸ (Option.some.injEq .. ▸ hf0 :
      (f0, getCol dup f0) = (f, v))
    exact hc.1
  · rw [if_neg hc] at hf0
    cases hf0

/-- `upsert_company` never changes a truthy stored column (shared by the C2
and C3 developments). -/
lemma upsert_preserves_truthy (st : Store) (e : Entity) (aid : ℕ) (c : ℚ)
    (now : ℕ) (hnd : (st.companies.map (fun r => r.company_id)).Nodup)
    (i : ℕ) (k : String) (hi : i < st.companies.length)
    (htruthy : truthy (getCol (st.companies.getD i defaultRow).attrs k) = true) :
    getCol ((upsert_company st e aid c now).2.companies.getD i defaultRow).attrs k =
      getCol (st.companies.getD i defaultRow).attrs k := by
  unfold upsert_company
  dsimp only
  split
  · rfl
  · cases hfind : find_matching_company st.companies
      (pyStrip (e.company_name.getD [])) e.city with
    | none =>
      show getCol ((upsert_company_insert st e aid c now
        (pyStrip (e.company_name.getD []))).2.companies.getD i defaultRow).attrs k = _
      unfold upsert_company_insert
      dsimp only
      rw [(after_link_save _ _ _ _ _ _ _ _).1]
      show getCol ((st.companies ++
        [({ company_id := st.nextId,
            attrs := (buildCompanyData st e
              (pyStrip (e.company_name.getD []))).filter (fun p => p.2.isSome),
            data_confidence := c, created_at := now,
            updated_at := now } : CompanyRow)]).getD i defaultRow).attrs k = _
      rw [List.getD_eq_getElem?_getD, List.getElem?_append_left hi,
        ← List.getD_eq_getElem?_getD]
    | some existing_id =>
      show getCol ((upsert_company_update st e aid c now
        (pyStrip (e.company_name.getD [])) existing_id).2.companies.getD i
          defaultRow).attrs k = _
      unfold upsert_company_update
      dsimp only
      cases hcur : st.companies.find? (fun r => r.company_id = existing_id) with
      | none => rfl
      | some current =>
        rw [(after_link_save _ _ _ _ _ _ _ _).1]
        dsimp only
        rw [List.getD_eq_getElem _ _ (by rw [List.length_map]; exact hi),
          List.getElem_map]
        rw [List.getD_eq_getElem _ _ hi] at htruthy ⊢
        by_cases hid : st.companies[i].company_id = existing_id
        · have hcurid : current.company_id = existing_id := by
            simpa using List.find?_some hcur
          have heq : st.companies[i] = current :=
            List.inj_on_of_nodup_map hnd
              (List.getElem_mem hi)
              (List.mem_of_find?_eq_some hcur)
              (by rw [hid, hcurid])
          rw [if_pos hid]
          dsimp only
          apply getCol_applyUpd_not_mem
          intro hkmem
          obtain ⟨⟨k', v⟩, hkv, hk⟩ := List.mem_map.mp hkmem
          dsimp at hk
          subst hk
          have hbad := (buildUpdateData_mem _ _ _ _ hkv).2
          rw [← heq] at hbad
          rw [htruthy] at hbad
          cases hbad
        · rw [if_neg hid]

/-! ## Claim C2 (amended) -/

/-- C2 (amended): the partial-fill guarantee as the code actually provides
it.  For `upsert_company` (over a table with unique primary keys) every
field that is *truthy* — non-null, non-empty, non-zero — before the update
keeps its value; a non-null but falsy value (`0`, `""`) is not protected
(see the counterexample).  For a QA merge applied to one candidate pair
whose keeper snapshot agrees with the table, every non-null field of every
row keeps its value; the protection degrades only when several scanned
pairs share a keeper (see the counterexample). -/
theorem c2_partial_fill_amended :
    (∀ (st : Store) (e : Entity) (aid : ℕ) (c : ℚ) (now : ℕ),
      (st.companies.map (fun r => r.company_id)).Nodup →
      ∀ (i : ℕ) (k : String), i < st.companies.length →
      truthy (getCol (st.companies.getD i defaultRow).attrs k) = true →
      getCol ((upsert_company st e aid c now).2.companies.getD i defaultRow).attrs k =
        getCol (st.companies.getD i defaultRow).attrs k) ∧
    (∀ (commit : Bool) (table : List QCompany) (kc dc : QCompany) (dist : ℕ),
      (∀ r ∈ table, getCol r "id" = getCol (mergeKeeper kc dc).1 "id" →
        r = (mergeKeeper kc dc).1) →
      ∀ (i : ℕ) (f : String), i < table.length →
      (getCol (table.getD i []) f).isSome = true →
      getCol ((merge_duplicates commit table [(kc, dc, dist)]).2.getD i []) f =
        getCol (table.getD i []) f) := by
  constructor
  · intro st e aid c now hnd i k hi htruthy
    exact upsert_preserves_truthy st e aid c now hnd i k hi htruthy
  · intro commit table kc dc dist hsnap i f hi hsome
    show getCol ((mergeOne commit table 0 kc dc).2.getD i []) f =
      getCol (table.getD i []) f
    unfold mergeOne
    dsimp only
    split_ifs with h1 h2
    · rw [List.getD_eq_getElem _ _ (by rw [List.length_map]; exact hi),
        List.getElem_map]
      rw [List.getD_eq_getElem _ _ hi] at hsome ⊢
      by_cases hid : getCol table[i] "id" = getCol (mergeKeeper kc dc).1 "id"
      · have heq := hsnap table[i] (List.getElem_mem hi) hid
        rw [if_pos hid]
        apply getCol_applyUpd_not_mem
        intro hkmem
        obtain ⟨⟨f', v⟩, hkv, hk⟩ := List.mem_map.mp hkmem
        dsimp at hk
        subst hk
        have hnone := mergeUpdateData_mem _ _ _ _ hkv
        rw [← heq] at hnone
        rw [hnone] at hsome
        cases hsome
      · rw [if_neg hid]
    · rfl
    · rfl

/-- Witness for C2 (amended): the truthy stored company name survives a
re-upsert of the same company. -/
theorem c2_partial_fill_amended_witness :
    truthy (getCol (c2_store.companies.getD 0 defaultRow).attrs "company_name") = true ∧
    getCol ((upsert_company c2_store c2_entity 7 0 1).2.companies.getD 0
        defaultRow).attrs "company_name" =
      getCol (c2_store.companies.getD 0 defaultRow).attrs "company_name" :=
  ⟨by decide,
   c2_partial_fill_amended.1 c2_store c2_entity 7 0 1 (by decide) 0
     "company_name" (by decide) (by decide)⟩

/-! ## Claim C6 (counterexample) -/

/-- C6 counterexample: two stored companies named `"AB"` — their normalized
names have length difference 0 and Levenshtein distance 0, which is `≤ 2`
and smaller than the longer length, yet the scan flags nothing because both
normalized names are shorter than 3 characters. -/
theorem c6_counterexample :
    ((normalize_company_name (qName c6_qc1)).length =
       (normalize_company_name (qName c6_qc2)).length ∧
     levenshtein_distance (normalize_company_name (qName c6_qc1))
       (normalize_company_name (qName c6_qc2)) ≤ 2 ∧
     levenshtein_distance (normalize_company_name (qName c6_qc1))
       (normalize_company_name (qName c6_qc2)) <
       max (normalize_company_name (qName c6_qc1)).length
         (normalize_company_name (qName c6_qc2)).length) ∧
    find_duplicates [c6_qc1, c6_qc2] = [] := by
  decide

/-! ## Claim C6 (amended) -/

lemma pairKey_eq_elim {a b c d : Val} (h : pairKey a b = pairKey c d) :
    (a = c ∧ b = d) ∨ (a = d ∧ b = c) := by
  unfold pairKey at h
  split_ifs at h <;> rw [Prod.mk.injEq] at h
  · exact Or.inl h
  · exact Or.inr h
  · exact Or.inr ⟨h.2, h.1⟩
  · exact Or.inl ⟨h.2, h.1⟩

/-- Every pair the inner QA loop emits couples the outer row with a later
row that passed all four guards, and records the true Levenshtein distance
of the normalized names. -/
lemma findDupsInner_sound (c1 : QCompany) (n1 : PyStr) (rest : List QCompany) :
    ∀ (seen : List (Val × Val)) (a b : QCompany) (d : ℕ),
      (a, b, d) ∈ (findDupsInner c1 n1 rest seen).1 →
      a = c1 ∧ b ∈ rest ∧
      3 ≤ (normalize_company_name (qName b)).length ∧
      ((n1.length : ℤ) -
        ((normalize_company_name (qName b)).length : ℤ)).natAbs ≤ 2 ∧
      d = levenshtein_distance n1 (normalize_company_name (qName b)) ∧
      d ≤ 2 ∧ d < max n1.length (normalize_company_name (qName b)).length := by
  induction rest with
  | nil =>
    intro seen a b d h
    rw [findDupsInner] at h
    exact absurd h (List.not_mem_nil _)
  | cons c2 tl ih =>
    intro seen a b d h
    rw [findDupsInner] at h
    dsimp only at h
    split_ifs at h with h3 hld hcond hseen
    · obtain ⟨ha, hb, hrest⟩ := ih seen a b d h
      exact ⟨ha, List.mem_cons_of_mem _ hb, hrest⟩
    · obtain ⟨ha, hb, hrest⟩ := ih seen a b d h
      exact ⟨ha, List.mem_cons_of_mem _ hb, hrest⟩
    · obtain ⟨ha, hb, hrest⟩ := ih seen a b d h
      exact ⟨ha, List.mem_cons_of_mem _ hb, hrest⟩
    · rcases List.mem_cons.mp h with heq | hmem
      · injection heq with ha hbd
        injection hbd with hb hd
        subst ha
        subst hb
        subst hd
        exact ⟨rfl, List.mem_cons_self _ _, by omega, by omega, rfl,
          hcond.1, hcond.2⟩
      · obtain ⟨ha, hb, hrest⟩ :=
          ih (pairKey (qId c1) (qId c2) :: seen) a b d hmem
        exact ⟨ha, List.mem_cons_of_mem _ hb, hrest⟩
    · obtain ⟨ha, hb, hrest⟩ := ih seen a b d h
      exact ⟨ha, List.mem_cons_of_mem _ hb, hrest⟩

/-- Keys the inner loop adds to `seen_pairs` all pair the outer row's id
with the id of some later row. -/
lemma findDupsInner_seen (c1 : QCompany) (n1 : PyStr) (rest : List QCompany) :
    ∀ (seen : List (Val × Val)) (k : Val × Val),
      k ∈ (findDupsInner c1 n1 rest seen).2 →
      k ∈ seen ∨ ∃ x ∈ rest, k = pairKey (qId c1) (qId x) := by
  induction rest with
  | nil =>
    intro seen k h
    rw [findDupsInner] at h
    exact Or.inl h
  | cons c2 tl ih =>
    intro seen k h
    rw [findDupsInner] at h
    dsimp only at h
    split_ifs at h with h3 hld hcond hseen
    · rcases ih seen k h with h | ⟨x, hx, hk⟩
      · exact Or.inl h
      · exact Or.inr ⟨x, List.mem_cons_of_mem _ hx, hk⟩
    · rcases ih seen k h with h | ⟨x, hx, hk⟩
      · exact Or.inl h
      · exact Or.inr ⟨x, List.mem_cons_of_mem _ hx, hk⟩
    · rcases ih seen k h with h | ⟨x, hx, hk⟩
      · exact Or.inl h
      · exact Or.inr ⟨x, List.mem_cons_of_mem _ hx, hk⟩
    · rcases ih (pairKey (qId c1) (qId c2) :: seen) k h with h | ⟨x, hx, hk⟩
      · rcases List.mem_cons.mp h with hk0 | h
        · exact Or.inr ⟨c2, List.mem_cons_self _ _, hk0⟩
        · exact Or.inl h
      · exact Or.inr ⟨x, List.mem_cons_of_mem _ hx, hk⟩
    · rcases ih seen k h with h | ⟨x, hx, hk⟩
      · exact Or.inl h
      · exact Or.inr ⟨x, List.mem_cons_of_mem _ hx, hk⟩

/-- The inner loop does flag a later row that passes every guard, provided
the pair's key is not already in `seen_pairs` and no earlier later-row
shares its key. -/
lemma findDupsInner_complete (c1 c2 : QCompany) (n1 : PyStr)
    (l3 : List QCompany)
    (h32 : 3 ≤ (normalize_company_name (qName c2)).length)
    (hld : ((n1.length : ℤ) -
      ((normalize_company_name (qName c2)).length : ℤ)).natAbs ≤ 2)
    (hd2 : levenshtein_distance n1 (normalize_company_name (qName c2)) ≤ 2)
    (hdm : levenshtein_distance n1 (normalize_company_name (qName c2)) <
      max n1.length (normalize_company_name (qName c2)).length) :
    ∀ (l2 : List QCompany) (seen : List (Val × Val)),
      (∀ k ∈ seen, k ≠ pairKey (qId c1) (qId c2)) →
      (∀ x ∈ l2, pairKey (qId c1) (qId x) ≠ pairKey (qId c1) (qId c2)) →
      (c1, c2, levenshtein_distance n1 (normalize_company_name (qName c2))) ∈
        (findDupsInner c1 n1 (l2 ++ c2 :: l3) seen).1 := by
  intro l2
  induction l2 with
  | nil =>
    intro seen hseen _
    rw [List.nil_append, findDupsInner]
    dsimp only
    rw [if_neg (by omega), if_neg (by omega), if_pos ⟨hd2, hdm⟩,
      if_neg (fun hk => hseen _ hk rfl)]
    exact List.mem_cons_self _ _
  | cons x tl ih =>
    intro seen hseen hl2
    rw [List.cons_append, findDupsInner]
    dsimp only
    by_cases hx3 : (normalize_company_name (qName x)).length < 3
    · rw [if_pos hx3]
      exact ih seen hseen (fun y hy => hl2 y (List.mem_cons_of_mem _ hy))
    · rw [if_neg hx3]
      by_cases hxl : 2 < ((n1.length : ℤ) -
          ((normalize_company_name (qName x)).length : ℤ)).natAbs
      · rw [if_pos hxl]
        exact ih seen hseen (fun y hy => hl2 y (List.mem_cons_of_mem _ hy))
      · rw [if_neg hxl]
        by_cases hxc : levenshtein_distance n1
              (normalize_company_name (qName x)) ≤ 2 ∧
            levenshtein_distance n1 (normalize_company_name (qName x)) <
              max n1.length (normalize_company_name (qName x)).length
        · rw [if_pos hxc]
          by_cases hxs : pairKey (qId c1) (qId x) ∈ seen
          · rw [if_pos hxs]
            exact ih seen hseen (fun y hy => hl2 y (List.mem_cons_of_mem _ hy))
          · rw [if_neg hxs]
            refine List.mem_cons_of_mem _ ?_
            exact ih (pairKey (qId c1) (qId x) :: seen)
              (fun k hk => by
                rcases List.mem_cons.mp hk with hk0 | hk'
                · rw [hk0]
                  exact hl2 x (List.mem_cons_self _ _)
                · exact hseen k hk')
              (fun y hy => hl2 y (List.mem_cons_of_mem _ hy))
        · rw [if_neg hxc]
          exact ih seen hseen (fun y hy => hl2 y (List.mem_cons_of_mem _ hy))

/-- Everything the outer QA loop emits satisfies all four guards of the
duplicate scan (in particular both normalized names have length at least
three). -/
lemma findDupsOuter_sound (cs : List QCompany) :
    ∀ (seen : List (Val × Val)) (a b : QCompany) (d : ℕ),
      (a, b, d) ∈ (findDupsOuter cs seen).1 →
      3 ≤ (normalize_company_name (qName a)).length ∧
      3 ≤ (normalize_company_name (qName b)).length ∧
      (((normalize_company_name (qName a)).length : ℤ) -
        ((normalize_company_name (qName b)).length : ℤ)).natAbs ≤ 2 ∧
      d = levenshtein_distance (normalize_company_name (qName a))
        (normalize_company_name (qName b)) ∧
      d ≤ 2 ∧
      d < max (normalize_company_name (qName a)).length
        (normalize_company_name (qName b)).length := by
  induction cs with
  | nil =>
    intro seen a b d h
    rw [findDupsOuter] at h
    exact absurd h (List.not_mem_nil _)
  | cons c1 tl ih =>
    intro seen a b d h
    rw [findDupsOuter] at h
    dsimp only at h
    split_ifs at h with h3
    · exact ih seen a b d h
    · rcases List.mem_append.mp h with h | h
      · obtain ⟨ha, _, h3b, hldx, hdx, hd2x, hdmx⟩ :=
          findDupsInner_sound c1 (normalize_company_name (qName c1)) tl
            seen a b d h
        subst ha
        exact ⟨by omega, h3b, hldx, hdx, hd2x, hdmx⟩
      · exact ih _ a b d h

/-- The outer loop reaches a qualifying pair and flags it, provided every
key already seen involves neither row of the pair. -/
lemma findDupsOuter_complete (c1 c2 : QCompany) (l2 l3 : List QCompany)
    (hne : qId c1 ≠ qId c2)
    (hl2 : ∀ x ∈ l2, qId x ≠ qId c1 ∧ qId x ≠ qId c2)
    (h31 : 3 ≤ (normalize_company_name (qName c1)).length)
    (h32 : 3 ≤ (normalize_company_name (qName c2)).length)
    (hld : (((normalize_company_name (qName c1)).length : ℤ) -
      ((normalize_company_name (qName c2)).length : ℤ)).natAbs ≤ 2)
    (hd2 : levenshtein_distance (normalize_company_name (qName c1))
      (normalize_company_name (qName c2)) ≤ 2)
    (hdm : levenshtein_distance (normalize_company_name (qName c1))
      (normalize_company_name (qName c2)) <
      max (normalize_company_name (qName c1)).length
        (normalize_company_name (qName c2)).length) :
    ∀ (l1 : List QCompany) (seen : List (Val × Val)),
      (∀ a ∈ l1, qId a ≠ qId c1 ∧ qId a ≠ qId c2) →
      (∀ k ∈ seen, ∃ p q, k = pairKey p q ∧ p ≠ qId c1 ∧ p ≠ qId c2) →
      (c1, c2, levenshtein_distance (normalize_company_name (qName c1))
        (normalize_company_name (qName c2))) ∈
        (findDupsOuter (l1 ++ c1 :: l2 ++ c2 :: l3) seen).1 := by
  intro l1
  induction l1 with
  | nil =>
    intro seen _ hseen
    rw [List.nil_append, List.cons_append, findDupsOuter]
    dsimp only
    rw [if_neg (by omega)]
    refine List.mem_append_left _ ?_
    refine findDupsInner_complete c1 c2 _ l3 h32 hld hd2 hdm l2 seen ?_ ?_
    · intro k hk heq
      obtain ⟨p, q, hkey, hp1, hp2⟩ := hseen k hk
      rw [hkey] at heq
      rcases pairKey_eq_elim heq with ⟨hpc, _⟩ | ⟨hpc, _⟩
      · exact hp1 hpc
      · exact hp2 hpc
    · intro x hx heq
      rcases pairKey_eq_elim heq with ⟨_, hxc⟩ | ⟨hcc, _⟩
      · exact (hl2 x hx).2 hxc
      · exact hne hcc
  | cons a tl ih =>
    intro seen hl1 hseen
    rw [List.cons_append, List.cons_append, findDupsOuter]
    dsimp only
    by_cases ha3 : (normalize_company_name (qName a)).length < 3
    · rw [if_pos ha3]
      exact ih seen (fun y hy => hl1 y (List.mem_cons_of_mem _ hy)) hseen
    · rw [if_neg ha3]
      refine List.mem_append_right _ ?_
      refine ih _ (fun y hy => hl1 y (List.mem_cons_of_mem _ hy)) ?_
      intro k hk
      rcases findDupsInner_seen a (normalize_company_name (qName a))
          (tl ++ c1 :: l2 ++ c2 :: l3) seen k hk with hold | ⟨x, _, hkx⟩
      · exact hseen k hold
      · exact ⟨qId a, qId x, hkx,
          (hl1 a (List.mem_cons_self _ _)).1,
          (hl1 a (List.mem_cons_self _ _)).2⟩

/-- C6: corrected duplicate-scan characterization. For stored companies with
pairwise-distinct ids, a pair `(c1, c2)` (in table order) is flagged — with
its normalized-name Levenshtein distance — iff BOTH normalized names are at
least 3 characters long, their lengths differ by at most 2, and the distance
is at most 2 and strictly smaller than the longer length. The spec's claim
omits the length-at-least-3 guard, which silently exempts short names from
the scan entirely (see the counterexample). -/
theorem c6_duplicate_scan_amended (l1 l2 l3 : List QCompany) (c1 c2 : QCompany)
    (hnd : ((l1 ++ c1 :: l2 ++ c2 :: l3).map qId).Nodup) :
    ((c1, c2, levenshtein_distance (normalize_company_name (qName c1))
        (normalize_company_name (qName c2))) ∈
      find_duplicates (l1 ++ c1 :: l2 ++ c2 :: l3)) ↔
    (3 ≤ (normalize_company_name (qName c1)).length ∧
     3 ≤ (normalize_company_name (qName c2)).length ∧
     (((normalize_company_name (qName c1)).length : ℤ) -
       ((normalize_company_name (qName c2)).length : ℤ)).natAbs ≤ 2 ∧
     levenshtein_distance (normalize_company_name (qName c1))
       (normalize_company_name (qName c2)) ≤ 2 ∧
     levenshtein_distance (normalize_company_name (qName c1))
       (normalize_company_name (qName c2)) <
       max (normalize_company_name (qName c1)).length
         (normalize_company_name (qName c2)).length) := by
  rw [List.map_append, List.map_cons, List.map_append, List.map_cons] at hnd
  obtain ⟨hA, -, hdisjAB⟩ := List.nodup_append.mp hnd
  obtain ⟨-, hc1l2, hdisj1⟩ := List.nodup_append.mp hA
  obtain ⟨hc1nl2, -⟩ := List.nodup_cons.mp hc1l2
  have hne : qId c1 ≠ qId c2 := by
    intro he
    exact hdisjAB (List.mem_append_right _ (List.mem_cons_self _ _))
      (by rw [he]; exact List.mem_cons_self _ _)
  have hl2d : ∀ x ∈ l2, qId x ≠ qId c1 ∧ qId x ≠ qId c2 := by
    intro x hx
    constructor
    · intro he
      apply hc1nl2
      rw [← he]
      exact List.mem_map_of_mem qId hx
    · intro he
      exact hdisjAB
        (List.mem_append_right _
          (List.mem_cons_of_mem _ (List.mem_map_of_mem qId hx)))
        (by rw [he]; exact List.mem_cons_self _ _)
  have hl1d : ∀ a ∈ l1, qId a ≠ qId c1 ∧ qId a ≠ qId c2 := by
    intro a ha
    have ham : qId a ∈ l1.map qId := List.mem_map_of_mem qId ha
    constructor
    · intro he
      exact hdisj1 ham (by rw [he]; exact List.mem_cons_self _ _)
    · intro he
      exact hdisjAB (List.mem_append_left _ ham)
        (by rw [he]; exact List.mem_cons_self _ _)
  constructor
  · intro h
    obtain ⟨h1, h2, h3, -, h5, h6⟩ :=
      findDupsOuter_sound (l1 ++ c1 :: l2 ++ c2 :: l3) [] c1 c2 _ h
    exact ⟨h1, h2, h3, h5, h6⟩
  · rintro ⟨h1, h2, h3, h4, h5⟩
    exact findDupsOuter_complete c1 c2 l2 l3 hne hl2d h1 h2 h3 h4 h5 l1 []
      hl1d (fun k hk => absurd hk (List.not_mem_nil _))

/-- Witness for the amended C6: `"Acme SA"` and `"Acme"` both normalize to
`"acme"` (length 4, distance 0), so the scan flags the pair. -/
theorem c6_duplicate_scan_amended_witness :
    ((([] ++ c6w_qc1 :: [] ++ c6w_qc2 :: []).map qId).Nodup) ∧
    (c6w_qc1, c6w_qc2,
      levenshtein_distance (normalize_company_name (qName c6w_qc1))
        (normalize_company_name (qName c6w_qc2))) ∈
      find_duplicates [c6w_qc1, c6w_qc2] :=
  ⟨by decide,
   (c6_duplicate_scan_amended [] [] [] c6w_qc1 c6w_qc2 (by decide)).mpr
     (by decide)⟩

/-! ## Claim C3 -/

lemma find?_congr_mem {α : Type} (p q : α → Bool) :
    ∀ (l : List α), (∀ a ∈ l, p a = q a) → l.find? p = l.find? q := by
  intro l
  induction l with
  | nil => intro _; rfl
  | cons x t ih =>
    intro h
    by_cases hx : p x = true
    · rw [List.find?_cons_of_pos _ hx,
        List.find?_cons_of_pos _ (by rw [← h x (List.mem_cons_self _ _)]; exact hx)]
    · rw [List.find?_cons_of_neg _ hx,
        List.find?_cons_of_neg _ (by rw [← h x (List.mem_cons_self _ _)]; exact hx),
        ih (fun a ha => h a (List.mem_cons_of_mem _ ha))]

lemma find?_append_left_none {α : Type} (p : α → Bool) (l1 l2 : List α)
    (h : ∀ a ∈ l1, p a = false) : (l1 ++ l2).find? p = l2.find? p := by
  induction l1 with
  | nil => rfl
  | cons x t ih =>
    rw [List.cons_append,
      List.find?_cons_of_neg _
        (by rw [h x (List.mem_cons_self _ _)]; exact Bool.false_ne_true)]
    exact ih (fun a ha => h a (List.mem_cons_of_mem _ ha))

lemma containsCI_ne_nil {nmr pat : PyStr} (h : containsCI nmr pat = true)
    (hp : pat ≠ []) : nmr ≠ [] := by
  intro hn
  subst hn
  unfold containsCI pyContains at h
  rw [decide_eq_true_eq] at h
  have hlen := h.length_le
  simp only [pyLower, List.length_map, List.length_nil] at hlen
  exact hp (List.eq_nil_of_length_eq_zero (Nat.le_zero.mp hlen))

/-- Soundness of the matcher: a returned id belongs to a stored row whose
name matched the ILIKE pattern. -/
lemma find_matching_company_sound (companies : List CompanyRow) (nm : PyStr)
    (city : Option PyStr) (id0 : ℕ)
    (h : find_matching_company companies nm city = some id0) :
    ∃ r ∈ companies, r.company_id = id0 ∧
      ∃ nmr, rowName r = some nmr ∧
        containsCI nmr (pyStrip (pyLower nm)) = true := by
  unfold find_matching_company at h
  dsimp only at h
  by_cases he : (pyStrip nm).isEmpty = true
  · rw [if_pos he] at h
    exact Option.noConfusion h
  · rw [if_neg he] at h
    revert h
    cases hfil : companies.filter (fun r =>
        match rowName r with
        | some nmr => containsCI nmr (pyStrip (pyLower nm))
        | none => false) with
    | nil => intro h; exact Option.noConfusion h
    | cons c cs =>
      have hsub : ∀ r ∈ c :: cs, r ∈ companies ∧
          (match rowName r with
           | some nmr => containsCI nmr (pyStrip (pyLower nm))
           | none => false) = true := by
        intro r hr
        rw [← hfil] at hr
        exact ⟨(List.mem_filter.mp hr).1, (List.mem_filter.mp hr).2⟩
      intro h
      dsimp only at h
      revert h
      cases hfind : (c :: cs).find? (fun r =>
          match rowName r with
          | some nmr => decide (pyLower nmr = pyStrip (pyLower nm))
          | none => false) with
      | some r =>
        intro h
        have h' : some r.company_id = some id0 := h
        injection h' with hid
        obtain ⟨hmem, hpred⟩ := hsub r (List.mem_of_find?_eq_some hfind)
        cases hrow : rowName r with
        | none =>
          rw [hrow] at hpred
          exact Bool.noConfusion hpred
        | some nmr =>
          rw [hrow] at hpred
          exact ⟨r, hmem, hid, nmr, hrow, hpred⟩
      | none =>
        intro h
        have h' : some c.company_id = some id0 := h
        injection h' with hid
        obtain ⟨hmem, hpred⟩ := hsub c (List.mem_cons_self _ _)
        cases hrow : rowName c with
        | none =>
          rw [hrow] at hpred
          exact Bool.noConfusion hpred
        | some nmr =>
          rw [hrow] at hpred
          exact ⟨c, hmem, hid, nmr, hrow, hpred⟩

/-- When the matcher finds nothing for a non-empty name, there is no
candidate at all: the ILIKE filter is empty. -/
lemma find_matching_company_none_filter (companies : List CompanyRow)
    (nm : PyStr) (city : Option PyStr)
    (hne : (pyStrip nm).isEmpty = false)
    (h : find_matching_company companies nm city = none) :
    companies.filter (fun r =>
      match rowName r with
      | some nmr => containsCI nmr (pyStrip (pyLower nm))
      | none => false) = [] := by
  unfold find_matching_company at h
  dsimp only at h
  rw [if_neg (by rw [hne]; exact Bool.false_ne_true)] at h
  revert h
  cases hfil : companies.filter (fun r =>
      match rowName r with
      | some nmr => containsCI nmr (pyStrip (pyLower nm))
      | none => false) with
  | nil => intro _; rfl
  | cons c cs =>
    intro h
    dsimp only at h
    revert h
    cases hfind : (c :: cs).find? (fun r =>
        match rowName r with
        | some nmr => decide (pyLower nmr = pyStrip (pyLower nm))
        | none => false) with
    | some r =>
      intro h
      exact Option.noConfusion (h : some r.company_id = none)
    | none =>
      intro h
      exact Option.noConfusion (h : some c.company_id = none)

/-- The matcher reads only `company_name` and `company_id`, so any rewrite
of the table preserving both preserves the result (the unused `city`
argument may even differ between the two calls). -/
lemma find_matching_company_map (companies : List CompanyRow)
    (g : CompanyRow → CompanyRow)
    (hname : ∀ r ∈ companies, rowName (g r) = rowName r)
    (hid : ∀ r ∈ companies, (g r).company_id = r.company_id)
    (nm : PyStr) (city city' : Option PyStr) :
    find_matching_company (companies.map g) nm city =
      find_matching_company companies nm city' := by
  unfold find_matching_company
  split_ifs with h
  · rfl
  · dsimp only
    have hfeq : companies.filter ((fun r =>
        match rowName r with
        | some nmr => containsCI nmr (pyStrip (pyLower nm))
        | none => false) ∘ g) = companies.filter (fun r =>
        match rowName r with
        | some nmr => containsCI nmr (pyStrip (pyLower nm))
        | none => false) :=
      List.filter_congr (fun r hr => by
        simp only [Function.comp_apply]
        rw [hname r hr])
    rw [List.filter_map, hfeq]
    cases hfil : companies.filter (fun r =>
        match rowName r with
        | some nmr => containsCI nmr (pyStrip (pyLower nm))
        | none => false) with
    | nil => rfl
    | cons c cs =>
      have hsub : ∀ r ∈ c :: cs, r ∈ companies := by
        intro r hr
        rw [← hfil] at hr
        exact List.mem_of_mem_filter hr
      show (match (List.map g (c :: cs)).find? (fun r =>
          match rowName r with
          | some nmr => decide (pyLower nmr = pyStrip (pyLower nm))
          | none => false) with
        | some r => some r.company_id
        | none => some (g c).company_id) =
        (match (c :: cs).find? (fun r =>
          match rowName r with
          | some nmr => decide (pyLower nmr = pyStrip (pyLower nm))
          | none => false) with
        | some r => some r.company_id
        | none => some c.company_id)
      rw [List.find?_map,
        find?_congr_mem _ _ (c :: cs) (fun r hr => by
          simp only [Function.comp_apply]
          rw [hname r (hsub r hr)])]
      cases hfind : (c :: cs).find? (fun r =>
          match rowName r with
          | some nmr => decide (pyLower nmr = pyStrip (pyLower nm))
          | none => false) with
      | some r =>
        show some (g r).company_id = some r.company_id
        rw [hid r (hsub r (List.mem_of_find?_eq_some hfind))]
      | none =>
        show some (g c).company_id = some c.company_id
        rw [hid c (hsub c (List.mem_cons_self _ _))]

/-- Appending a row whose name equals the (stripped, non-empty) candidate to
a table with no ILIKE candidate makes the matcher return exactly that row. -/
lemma find_matching_company_only (companies : List CompanyRow) (nm0 : PyStr)
    (row : CompanyRow) (city : Option PyStr)
    (hstrip : pyStrip nm0 = nm0)
    (hne : nm0.isEmpty = false)
    (hrow : rowName row = some nm0)
    (hfil : companies.filter (fun r =>
      match rowName r with
      | some nmr => containsCI nmr (pyStrip (pyLower nm0))
      | none => false) = []) :
    find_matching_company (companies ++ [row]) nm0 city = some row.company_id := by
  have hpat : pyStrip (pyLower nm0) = pyLower nm0 := by
    rw [← hstrip]
    exact pat_of_stripped nm0
  have hpred : (match rowName row with
      | some nmr => containsCI nmr (pyStrip (pyLower nm0))
      | none => false) = true := by
    rw [hrow]
    show containsCI nm0 (pyStrip (pyLower nm0)) = true
    rw [hpat]
    unfold containsCI pyContains
    rw [pyLower_pyLower]
    exact decide_eq_true (List.infix_refl _)
  have hpred2 : (match rowName row with
      | some nmr => decide (pyLower nmr = pyStrip (pyLower nm0))
      | none => false) = true := by
    rw [hrow]
    show decide (pyLower nm0 = pyStrip (pyLower nm0)) = true
    rw [hpat]
    exact decide_eq_true rfl
  unfold find_matching_company
  rw [if_neg (by rw [hstrip, hne]; exact Bool.false_ne_true)]
  dsimp only
  have hfone : List.filter (fun r =>
      match rowName r with
      | some nmr => containsCI nmr (pyStrip (pyLower nm0))
      | none => false) [row] = [row] :=
    List.filter_eq_self.mpr (fun a ha => by
      rw [List.mem_singleton] at ha
      subst ha
      exact hpred)
  rw [List.filter_append, hfil, List.nil_append, hfone]
  show (match ([row] : List CompanyRow).find? (fun r =>
      match rowName r with
      | some nmr => decide (pyLower nmr = pyStrip (pyLower nm0))
      | none => false) with
    | some r => some r.company_id
    | none => some row.company_id) = some row.company_id
  cases hf : ([row] : List CompanyRow).find? (fun r =>
      match rowName r with
      | some nmr => decide (pyLower nmr = pyStrip (pyLower nm0))
      | none => false) with
  | some r =>
    have hrmem := List.mem_of_find?_eq_some hf
    rw [List.mem_singleton] at hrmem
    subst hrmem
    rfl
  | none =>
    exact absurd hpred2
      (List.find?_eq_none.mp hf row (List.mem_singleton.mpr rfl))

/-- The found-existing branch of `upsert_company`, written out. -/
lemma upsert_company_update_eq (st : Store) (e : Entity) (aid : ℕ) (c : ℚ)
    (now : ℕ) (nm : PyStr) (eid : ℕ) (current : CompanyRow)
    (hcur : st.companies.find? (fun r => r.company_id = eid) = some current) :
    upsert_company_update st e aid c now nm eid =
      (some eid,
       save_management
         (link_article_to_company
           { st with companies := st.companies.map (fun r =>
               if r.company_id = eid then
                 { r with
                   attrs :=
                     applyUpd r.attrs
                       (buildUpdateData (buildCompanyData st e nm) current),
                   data_confidence :=
                     if c > current.data_confidence then c
                     else current.data_confidence,
                   updated_at := now }
               else r) }
           eid aid (e.mention_type.getD (str "mentioned")) now)
         eid e.management_mentions now) := by
  unfold upsert_company_update
  rw [hcur]

/-- The not-found branch of `upsert_company`, written out. -/
lemma upsert_company_insert_eq (st : Store) (e : Entity) (aid : ℕ) (c : ℚ)
    (now : ℕ) (nm : PyStr) :
    upsert_company_insert st e aid c now nm =
      (some st.nextId,
       save_management
         (link_article_to_company
           { st with
             nextId := st.nextId + 1,
             companies := st.companies ++
               [{ company_id := st.nextId,
                  attrs :=
                    (buildCompanyData st e nm).filter
                      (fun p => p.2.isSome),
                  data_confidence := c, created_at := now,
                  updated_at := now }] }
           st.nextId aid (e.mention_type.getD (str "mentioned")) now)
         st.nextId e.management_mentions now) := rfl

/-- The update branch never changes any row's primary key. -/
lemma upsert_company_update_ids (st : Store) (e : Entity) (aid : ℕ) (c : ℚ)
    (now : ℕ) (nm : PyStr) (eid : ℕ) :
    (upsert_company_update st e aid c now nm eid).2.companies.map
      (fun r => r.company_id) = st.companies.map (fun r => r.company_id) := by
  unfold upsert_company_update
  dsimp only
  cases hcur : st.companies.find? (fun r => r.company_id = eid) with
  | none => rfl
  | some current =>
    rw [(after_link_save _ _ _ _ _ _ _ _).1]
    dsimp only
    rw [List.map_map]
    refine List.map_congr_left ?_
    intro r _
    dsimp only [Function.comp_apply]
    split <;> rfl

/-- The update branch leaves every row's name unchanged (the matched row's
name is truthy, so the partial fill skips `company_name`), hence re-running
the matcher on the same name resolves to the same id. -/
lemma matcher_after_update (st : Store) (e : Entity) (aid : ℕ) (c : ℚ)
    (now : ℕ) (eid : ℕ)
    (hids : (st.companies.map (fun r => r.company_id)).Nodup)
    (hmatch : find_matching_company st.companies
      (pyStrip (e.company_name.getD [])) e.city = some eid) :
    find_matching_company
      (upsert_company_update st e aid c now
        (pyStrip (e.company_name.getD [])) eid).2.companies
      (pyStrip (e.company_name.getD [])) e.city = some eid := by
  obtain ⟨r0, hr0mem, hr0id, nmr, hrow, hcont⟩ :=
    find_matching_company_sound _ _ _ _ hmatch
  have hne0 : pyStrip (e.company_name.getD []) ≠ [] := by
    intro hnil
    rw [hnil] at hmatch
    exact Option.noConfusion hmatch
  have hpatne : pyStrip (pyLower (pyStrip (e.company_name.getD []))) ≠ [] := by
    rw [pat_of_stripped]
    intro hnil
    exact hne0 (List.map_eq_nil_iff.mp hnil)
  have hnmrne : nmr ≠ [] := containsCI_ne_nil hcont hpatne
  cases hcur : st.companies.find? (fun r => r.company_id = eid) with
  | none =>
    exfalso
    apply List.find?_eq_none.mp hcur r0 hr0mem
    simp [hr0id]
  | some current =>
    have hcurid : current.company_id = eid := by
      simpa using List.find?_some hcur
    have hcureq : current = r0 :=
      List.inj_on_of_nodup_map hids (List.mem_of_find?_eq_some hcur) hr0mem
        (by rw [hcurid, hr0id])
    have hgc : getCol r0.attrs "company_name" = some (.s nmr) := by
      unfold rowName at hrow
      cases hg : getCol r0.attrs "company_name" with
      | none =>
        rw [hg] at hrow
        exact Option.noConfusion hrow
      | some v0 =>
        cases v0 with
        | s w =>
          rw [hg] at hrow
          have hw : some w = some nmr := hrow
          injection hw with hw2
          rw [hw2]
        | n q =>
          rw [hg] at hrow
          exact Option.noConfusion (hrow : (none : Option PyStr) = some nmr)
    have hnoname : "company_name" ∉
        (buildUpdateData (buildCompanyData st e
          (pyStrip (e.company_name.getD []))) current).map Prod.fst := by
      intro hkmem
      obtain ⟨⟨k', v⟩, hkv, hk⟩ := List.mem_map.mp hkmem
      dsimp at hk
      subst hk
      have hbad := (buildUpdateData_mem _ _ _ _ hkv).2
      rw [hcureq, hgc] at hbad
      have hb : (!nmr.isEmpty) = false := hbad
      rw [Bool.not_eq_false'] at hb
      cases hnm : nmr with
      | nil => exact hnmrne hnm
      | cons a t =>
        rw [hnm] at hb
        exact Bool.noConfusion hb
    rw [upsert_company_update_eq st e aid c now _ eid current hcur]
    dsimp only
    rw [(after_link_save _ _ _ _ _ _ _ _).1]
    dsimp only
    refine (find_matching_company_map st.companies _ ?_ ?_ _ e.city e.city).trans
      hmatch
    · intro r hrmem
      dsimp only
      by_cases hrid : r.company_id = eid
      · rw [if_pos hrid]
        unfold rowName
        dsimp only
        rw [getCol_applyUpd_not_mem _ _ _ hnoname]
      · rw [if_neg hrid]
    · intro r _
      dsimp only
      by_cases hrid : r.company_id = eid
      · rw [if_pos hrid]
      · rw [if_neg hrid]

/-- `upsert_company` on a non-empty name dispatches on the matcher. -/
lemma upsert_company_eq_branch (st : Store) (e : Entity) (aid : ℕ) (c : ℚ)
    (now : ℕ)
    (hemp : (pyStrip (e.company_name.getD [])).isEmpty = false) :
    upsert_company st e aid c now =
      (match find_matching_company st.companies
          (pyStrip (e.company_name.getD [])) e.city with
        | some eid => upsert_company_update st e aid c now
            (pyStrip (e.company_name.getD [])) eid
        | none => upsert_company_insert st e aid c now
            (pyStrip (e.company_name.getD []))) := by
  unfold upsert_company
  dsimp only
  rw [if_neg (by rw [hemp]; exact Bool.false_ne_true)]

/-- C3: upserting the same entity twice is idempotent on the companies
table.  Over a well-formed store (pairwise-distinct primary keys, every key
below the id counter), if the first `upsert_company` resolves an id then
the second identical call (1) resolves the same id, (2) keeps exactly the
same rows — same primary keys in the same order, no new company row — and
(3) never changes a previously-populated (truthy) field value of any row. -/
theorem c3_upsert_idempotent (st : Store) (e : Entity) (aid : ℕ) (c : ℚ)
    (now1 now2 : ℕ) (id1 : ℕ)
    (hids : (st.companies.map (fun r => r.company_id)).Nodup)
    (hfresh : ∀ r ∈ st.companies, r.company_id < st.nextId)
    (h1 : (upsert_company st e aid c now1).1 = some id1) :
    (upsert_company (upsert_company st e aid c now1).2 e aid c now2).1 =
      some id1 ∧
    (upsert_company (upsert_company st e aid c now1).2 e aid c
        now2).2.companies.map (fun r => r.company_id) =
      (upsert_company st e aid c now1).2.companies.map
        (fun r => r.company_id) ∧
    ∀ (i : ℕ) (k : String),
      i < (upsert_company st e aid c now1).2.companies.length →
      truthy (getCol ((upsert_company st e aid c now1).2.companies.getD i
        defaultRow).attrs k) = true →
      getCol ((upsert_company (upsert_company st e aid c now1).2 e aid c
          now2).2.companies.getD i defaultRow).attrs k =
        getCol ((upsert_company st e aid c now1).2.companies.getD i
          defaultRow).attrs k := by
  have hemp : (pyStrip (e.company_name.getD [])).isEmpty = false := by
    by_cases hb : (pyStrip (e.company_name.getD [])).isEmpty = true
    · exfalso
      unfold upsert_company at h1
      dsimp only at h1
      rw [if_pos hb] at h1
      exact Option.noConfusion h1
    · simpa using hb
  rw [upsert_company_eq_branch st e aid c now1 hemp] at h1
  cases hm1 : find_matching_company st.companies
      (pyStrip (e.company_name.getD [])) e.city with
  | some eid =>
    rw [hm1] at h1
    dsimp only at h1
    have hst1 : (upsert_company st e aid c now1).2 =
        (upsert_company_update st e aid c now1
          (pyStrip (e.company_name.getD [])) eid).2 := by
      rw [upsert_company_eq_branch st e aid c now1 hemp, hm1]
    cases hcur : st.companies.find? (fun r => r.company_id = eid) with
    | none =>
      exfalso
      unfold upsert_company_update at h1
      rw [hcur] at h1
      exact Option.noConfusion h1
    | some current =>
      have hid1 : eid = id1 := by
        rw [upsert_company_update_eq st e aid c now1 _ eid current hcur] at h1
        have h' : some eid = some id1 := h1
        injection h'
      subst hid1
      have hm2 := matcher_after_update st e aid c now1 eid hids hm1
      have hnd1 : ((upsert_company st e aid c now1).2.companies.map
          (fun r => r.company_id)).Nodup := by
        rw [hst1, upsert_company_update_ids]
        exact hids
      obtain ⟨r1, hr1mem, hr1id, -⟩ := find_matching_company_sound _ _ _ _ hm2
      cases hcur2 : (upsert_company_update st e aid c now1
          (pyStrip (e.company_name.getD [])) eid).2.companies.find?
          (fun r => r.company_id = eid) with
      | none =>
        exfalso
        apply List.find?_eq_none.mp hcur2 r1 hr1mem
        simp [hr1id]
      | some current2 =>
        refine ⟨?_, ?_, ?_⟩
        · rw [hst1, upsert_company_eq_branch _ e aid c now2 hemp, hm2]
          dsimp only
          rw [upsert_company_update_eq _ e aid c now2 _ eid current2 hcur2]
        · rw [hst1, upsert_company_eq_branch _ e aid c now2 hemp, hm2]
          dsimp only
          rw [upsert_company_update_ids]
        · intro i k hi ht
          exact upsert_preserves_truthy _ e aid c now2 hnd1 i k hi ht
  | none =>
    rw [hm1] at h1
    dsimp only at h1
    have h1' : (upsert_company_insert st e aid c now1
        (pyStrip (e.company_name.getD []))).1 = some id1 := h1
    have hid1 : st.nextId = id1 := by
      have h'' : some st.nextId = some id1 := h1'
      injection h''
    subst hid1
    have hst1 : (upsert_company st e aid c now1).2 =
        (upsert_company_insert st e aid c now1
          (pyStrip (e.company_name.getD []))).2 := by
      rw [upsert_company_eq_branch st e aid c now1 hemp, hm1]
    have hc1 : (upsert_company_insert st e aid c now1
        (pyStrip (e.company_name.getD []))).2.companies =
        st.companies ++
          [({ company_id := st.nextId,
              attrs :=
                (buildCompanyData st e
                  (pyStrip (e.company_name.getD []))).filter
                  (fun p => p.2.isSome),
              data_confidence := c, created_at := now1,
              updated_at := now1 } : CompanyRow)] := by
      rw [upsert_company_insert_eq]
      exact (after_link_save _ _ _ _ _ _ _ _).1
    have hrowname : rowName
        ({ company_id := st.nextId,
           attrs :=
             (buildCompanyData st e
               (pyStrip (e.company_name.getD []))).filter
               (fun p => p.2.isSome),
           data_confidence := c, created_at := now1,
           updated_at := now1 } : CompanyRow) =
        some (pyStrip (e.company_name.getD [])) := rfl
    have hfil0 := find_matching_company_none_filter st.companies
      (pyStrip (e.company_name.getD [])) e.city
      (by rw [pyStrip_idem]; exact hemp) hm1
    have hm2 : find_matching_company
        (upsert_company_insert st e aid c now1
          (pyStrip (e.company_name.getD []))).2.companies
        (pyStrip (e.company_name.getD [])) e.city = some st.nextId := by
      rw [hc1]
      exact find_matching_company_only st.companies _ _ e.city
        (pyStrip_idem _) hemp hrowname hfil0
    have hnd1 : ((upsert_company st e aid c now1).2.companies.map
        (fun r => r.company_id)).Nodup := by
      rw [hst1, hc1, List.map_append]
      refine List.nodup_append.mpr ⟨hids, List.nodup_singleton _, ?_⟩
      intro a ha hb
      obtain ⟨r, hr, rfl⟩ := List.mem_map.mp ha
      simp only [List.map_cons, List.map_nil, List.mem_singleton] at hb
      exact absurd hb (Nat.ne_of_lt (hfresh r hr))
    obtain ⟨r1, hr1mem, hr1id, -⟩ := find_matching_company_sound _ _ _ _ hm2
    cases hcur2 : (upsert_company_insert st e aid c now1
        (pyStrip (e.company_name.getD []))).2.companies.find?
        (fun r => r.company_id = st.nextId) with
    | none =>
      exfalso
      apply List.find?_eq_none.mp hcur2 r1 hr1mem
      simp [hr1id]
    | some current2 =>
      refine ⟨?_, ?_, ?_⟩
      · rw [hst1, upsert_company_eq_branch _ e aid c now2 hemp, hm2]
        dsimp only
        rw [upsert_company_update_eq _ e aid c now2 _ st.nextId current2 hcur2]
      · rw [hst1, upsert_company_eq_branch _ e aid c now2 hemp, hm2]
        dsimp only
        rw [upsert_company_update_ids]
      · intro i k hi ht
        exact upsert_preserves_truthy _ e aid c now2 hnd1 i k hi ht

/-- Witness for C3: upserting `Acme` twice into an empty store resolves the
same id both times and leaves a single company row. -/
theorem c3_upsert_idempotent_witness :
    (upsert_company (upsert_company emptyStore c2_entity 1 1 0).2
        c2_entity 1 1 5).1 = some 0 ∧
    (upsert_company (upsert_company emptyStore c2_entity 1 1 0).2
        c2_entity 1 1 5).2.companies.map (fun r => r.company_id) =
      (upsert_company emptyStore c2_entity 1 1 0).2.companies.map
        (fun r => r.company_id) :=
  ⟨(c3_upsert_idempotent emptyStore c2_entity 1 1 0 5 0 (by decide) (by decide)
      (by decide)).1,
   (c3_upsert_idempotent emptyStore c2_entity 1 1 0 5 0 (by decide) (by decide)
      (by decide)).2.1⟩

end Miim
